import Mathlib

/-!
# Verification of the z-color-picker conversion and pointer-geometry core

This file gives a shallow embedding, over exact arithmetic, of the color-space
conversion functions (`src/utils/colors.ts`, also bundled verbatim into the
main component file) and of the pointer-geometry helpers
(`src/utils/math.ts`, `updateColorFromPosition`, `updateAlphaFromPosition`,
`triggerOnChange` in the main component), together with proofs about them.

JavaScript numbers are idealized as exact rationals (`ℚ`) for the conversion
functions, and as reals (`ℝ`) where `Math.PI` / `Math.atan2` / `Math.sqrt`
are involved.  JavaScript primitives are modelled as follows:

* `Math.round x` is "round half toward +∞", i.e. `⌊x + 1/2⌋` (`jsRoundZ`);
* the remainder operator `a % b` truncates the quotient toward zero, so the
  result carries the sign of the dividend (`jsRem`);
* `Math.max` / `Math.min` are `max` / `min`.
-/

namespace ZColorPicker

/-- Integer result of JavaScript `Math.round`: round to nearest, ties toward
`+∞`. -/
def jsRoundZ (q : ℚ) : ℤ := ⌊q + 1/2⌋

/-- JavaScript truncation toward zero (the quotient convention used by the
`%` operator). -/
def jsTrunc (q : ℚ) : ℤ := if 0 ≤ q then ⌊q⌋ else ⌈q⌉

/-- JavaScript remainder `a % b`: `a - b * trunc (a / b)`, sign of the
dividend. -/
def jsRem (a b : ℚ) : ℚ := a - b * (jsTrunc (a / b) : ℚ)

/-- `RGBColor` record; the channels produced by `hsvToRgb` are
`Math.round`ed, hence integers. -/
structure RGBColor where
  r : ℤ
  g : ℤ
  b : ℤ
  deriving DecidableEq, Repr

/-- `HSVColor` record as produced by `rgbToHsv` (`h` is an integer number of
degrees stored in a JS number; `s`, `v` are fractions). -/
structure HSVColor where
  h : ℚ
  s : ℚ
  v : ℚ
  deriving DecidableEq, Repr

/-- `HSLColor` record as produced by `rgbToHsl`: all three components are
`Math.round`ed. -/
structure HSLColor where
  h : ℤ
  s : ℤ
  l : ℤ
  deriving DecidableEq, Repr

/-- `HSVAColor`: the authoritative color state of the widget. -/
structure HSVAColor where
  h : ℚ
  s : ℚ
  v : ℚ
  a : ℚ
  deriving DecidableEq, Repr

/-- `hsvToRgb` from `src/utils/colors.ts`: sector-based HSV→RGB conversion.
The six-way `if`/`else if` chain and the `%` operator are embedded verbatim. -/
def hsvToRgb (h s v : ℚ) : RGBColor :=
  let c := v * s
  let hh := h / 60
  let x := c * (1 - |jsRem hh 2 - 1|)
  let rgb : ℚ × ℚ × ℚ :=
    if 0 ≤ hh ∧ hh < 1 then (c, x, 0)
    else if hh < 2 then (x, c, 0)
    else if hh < 3 then (0, c, x)
    else if hh < 4 then (0, x, c)
    else if hh < 5 then (x, 0, c)
    else (c, 0, x)
  let m := v - c
  ⟨jsRoundZ ((rgb.1 + m) * 255), jsRoundZ ((rgb.2.1 + m) * 255),
    jsRoundZ ((rgb.2.2 + m) * 255)⟩

/-- `rgbToHsv` from `src/utils/colors.ts`.  `max === r` is tested first, then
`max === g`; the hue is `Math.round`ed after scaling by 60 and wrapped by
`+ 360` when negative. -/
def rgbToHsv (r g b : ℚ) : HSVColor :=
  let r' := r / 255
  let g' := g / 255
  let b' := b / 255
  let mx := max r' (max g' b')
  let mn := min r' (min g' b')
  let diff := mx - mn
  let h0 : ℚ :=
    if diff ≠ 0 then
      if mx = r' then jsRem ((g' - b') / diff) 6
      else if mx = g' then (b' - r') / diff + 2
      else (r' - g') / diff + 4
    else 0
  let h1 : ℤ := jsRoundZ (h0 * 60)
  let h : ℤ := if h1 < 0 then h1 + 360 else h1
  let s : ℚ := if mx = 0 then 0 else diff / mx
  ⟨(h : ℚ), s, mx⟩

/-- `rgbToHsl` from `src/utils/colors.ts`.  The `switch (max)` tries the cases
`r`, `g`, `b` in order (no default, so `h` keeps its initial `0`), and all
three results are `Math.round`ed. -/
def rgbToHsl (r g b : ℚ) : HSLColor :=
  let r' := r / 255
  let g' := g / 255
  let b' := b / 255
  let mx := max r' (max g' b')
  let mn := min r' (min g' b')
  let l := (mx + mn) / 2
  let hs : ℚ × ℚ :=
    if mx ≠ mn then
      let d := mx - mn
      let s := if 1/2 < l then d / (2 - mx - mn) else d / (mx + mn)
      let h :=
        if mx = r' then (g' - b') / d + (if g' < b' then 6 else 0)
        else if mx = g' then (b' - r') / d + 2
        else if mx = b' then (r' - g') / d + 4
        else 0
      (h / 6, s)
    else (0, 0)
  ⟨jsRoundZ (hs.1 * 360), jsRoundZ (hs.2 * 100), jsRoundZ (l * 100)⟩

/-- The inner `toHex` of `rgbToHex`: `` `0${c.toString(16)}`.slice(-2) ``.
`Nat.toDigits 16` matches `Number.prototype.toString(16)` (lowercase digits,
no leading zeros) on the nonnegative integers the widget feeds it. -/
def toHex (c : ℕ) : String :=
  let s := '0' :: Nat.toDigits 16 c
  ⟨s.drop (s.length - 2)⟩

/-- `rgbToHex` from `src/utils/colors.ts`, on the nonnegative integer channels
the widget passes it. -/
def rgbToHex (r g b : ℕ) : String :=
  "#" ++ toHex r ++ toHex g ++ toHex b

/-- The hue wrap `if (h < 0) h += 360;` of `rgbToHsv`, on the already-rounded
integer hue. -/
def wrapH (n : ℤ) : ℤ := if n < 0 then n + 360 else n

/-- Lowercase hexadecimal digit predicate (for the spec's "lowercase hex"
format guarantee). -/
def isLowerHexDigit (ch : Char) : Bool :=
  (('0' ≤ ch && ch ≤ '9') || ('a' ≤ ch && ch ≤ 'f'))

/-- Round half away from zero — the rounding rule the spec claims
("round to nearest, ties up" away from zero).  Modelled from the spec, for
comparison with the implementation's `jsRoundZ`. -/
def specAwayFromZeroRound (q : ℚ) : ℤ :=
  if q < 0 then -⌊-q + 1/2⌋ else ⌊q + 1/2⌋

/-- The color formats a caller may request (the `ColorFormat` union type of
`src/types/index.ts`). -/
inductive ColorFormat where
  | rgb | rgba | hex | hsl | hsla | hsv | hsva
  deriving DecidableEq, Repr

/-- The per-format payloads built by `triggerOnChange`'s `formatResults`
object. -/
inductive FormatValue where
  | rgbV (r g b : ℤ)
  | rgbaV (r g b : ℤ) (a : ℚ)
  | hexV (str : String)
  | hslV (h s l : ℤ)
  | hslaV (h s l : ℤ) (a : ℚ)
  | hsvV (h s v : ℤ)
  | hsvaV (h s v : ℤ) (a : ℚ)
  deriving DecidableEq, Repr

/-- The `formatResults` record built inside `triggerOnChange`: every available
representation of the new color, derived from the HSVA state exactly as the
component does (`hsvToRgb`, then `rgbToHsl` on its integer output, `rgbToHex`
on its integer output, and rounded HSV components). -/
def formatResults (c : HSVAColor) : ColorFormat → FormatValue :=
  let rgb := hsvToRgb c.h c.s c.v
  let hsl := rgbToHsl (rgb.r : ℚ) (rgb.g : ℚ) (rgb.b : ℚ)
  fun f =>
    match f with
    | .rgba => .rgbaV rgb.r rgb.g rgb.b c.a
    | .rgb => .rgbV rgb.r rgb.g rgb.b
    | .hex => .hexV (rgbToHex rgb.r.toNat rgb.g.toNat rgb.b.toNat)
    | .hsl => .hslV hsl.h hsl.s hsl.l
    | .hsla => .hslaV hsl.h hsl.s hsl.l c.a
    | .hsv => .hsvV (jsRoundZ c.h) (jsRoundZ (c.s * 100)) (jsRoundZ (c.v * 100))
    | .hsva =>
        .hsvaV (jsRoundZ c.h) (jsRoundZ (c.s * 100)) (jsRoundZ (c.v * 100)) c.a

/-- The value handed to `onChange`: the legacy merged object (no `formats`
prop or an empty list), a single format's bare value, or an object keyed by
format name (modelled extensionally as a partial lookup). -/
inductive ZColorResult where
  | merged (h s v a : ℚ) (r g b : ℤ)
  | single (value : FormatValue)
  | multiple (m : ColorFormat → Option FormatValue)

/-- `triggerOnChange` from the main component: dispatches on the length of the
`formats` prop; the multi-format object is built by a `forEach` assignment
loop, modelled as a `foldl` that updates the lookup one key at a time. -/
def triggerOnChange (c : HSVAColor) (formats : List ColorFormat) : ZColorResult :=
  let rgb := hsvToRgb c.h c.s c.v
  match formats with
  | [] => .merged c.h c.s c.v c.a rgb.r rgb.g rgb.b
  | [f] => .single (formatResults c f)
  | _ =>
      .multiple
        (formats.foldl
          (fun acc f => fun key =>
            if key = f then some (formatResults c f) else acc key)
          (fun _ => none))

/-! ### Pointer geometry (`src/utils/math.ts` and the pointer handlers)

These involve `Math.sqrt`, `Math.atan2` and `Math.PI`, so they are modelled
over the reals. -/

/-- `getDistance` from `src/utils/math.ts`. -/
noncomputable def getDistance (x1 y1 x2 y2 : ℝ) : ℝ :=
  Real.sqrt ((x2 - x1) ^ 2 + (y2 - y1) ^ 2)

/-- JavaScript `Math.atan2 y x` (note the argument order), by the usual case
split on signs, with `Real.arctan` on the ratio. -/
noncomputable def atan2 (y x : ℝ) : ℝ :=
  if 0 < x then Real.arctan (y / x)
  else if x < 0 then
    (if 0 ≤ y then Real.arctan (y / x) + Real.pi
     else Real.arctan (y / x) - Real.pi)
  else
    (if 0 < y then Real.pi / 2
     else if y < 0 then -(Real.pi / 2)
     else 0)

/-- `getAngle` from `src/utils/math.ts`: `Math.atan2(y - cy, x - cx)`. -/
noncomputable def getAngle (x y cx cy : ℝ) : ℝ :=
  atan2 (y - cy) (x - cx)

/-- Real-valued JS truncation toward zero. -/
noncomputable def jsTruncR (x : ℝ) : ℤ :=
  if 0 ≤ x then ⌊x⌋ else ⌈x⌉

/-- Real-valued JS remainder `a % b`. -/
noncomputable def jsRemR (a b : ℝ) : ℝ :=
  a - b * (jsTruncR (a / b) : ℝ)

/-- `radToDeg` from `src/utils/math.ts`:
`((rad * 180) / Math.PI + 360) % 360`. -/
noncomputable def radToDeg (rad : ℝ) : ℝ :=
  jsRemR (rad * 180 / Real.pi + 360) 360

/-- The hue/saturation pair computed by `updateColorFromPosition` in the main
component: hue from `radToDeg (getAngle …)`, saturation
`Math.min(1, distance / wheelRadius)`. -/
noncomputable def updateColorFromPosition (x y cx cy wheelRadius : ℝ) : ℝ × ℝ :=
  (radToDeg (getAngle x y cx cy),
    min 1 (getDistance x y cx cy / wheelRadius))

/-- The alpha computed by `updateAlphaFromPosition` in the main component:
the angle is shifted by `π/2`, wrapped into `[0, 2π)` when negative, and
`1 - angle / (2π)` is clamped to `[0, 1]`. -/
noncomputable def updateAlphaFromPosition (x y cx cy : ℝ) : ℝ :=
  let angle0 := getAngle x y cx cy + Real.pi / 2
  let angle := if angle0 < 0 then angle0 + 2 * Real.pi else angle0
  max 0 (min 1 (1 - angle / (2 * Real.pi)))

/-! ## Basic facts about the JavaScript primitives -/

theorem jsRoundZ_intCast (n : ℤ) : jsRoundZ (n : ℚ) = n := by
  unfold jsRoundZ
  rw [show ((n : ℚ) + 1/2) = 1/2 + (n : ℚ) by ring, Int.floor_add_int]
  norm_num

theorem jsRoundZ_cast_le (q : ℚ) : (jsRoundZ q : ℚ) ≤ q + 1/2 :=
  Int.floor_le _

theorem lt_jsRoundZ_cast (q : ℚ) : q - 1/2 < (jsRoundZ q : ℚ) := by
  have := Int.lt_floor_add_one (q + 1/2)
  unfold jsRoundZ
  linarith

theorem abs_jsRoundZ_sub_le (q : ℚ) : |(jsRoundZ q : ℚ) - q| ≤ 1/2 := by
  have h1 := jsRoundZ_cast_le q
  have h2 := lt_jsRoundZ_cast q
  rw [abs_le]
  constructor <;> linarith

theorem jsRoundZ_int_add (n : ℤ) (q : ℚ) :
    jsRoundZ ((n : ℚ) + q) = n + jsRoundZ q := by
  unfold jsRoundZ
  rw [show ((n : ℚ) + q + 1/2) = (n : ℚ) + (q + 1/2) by ring, Int.floor_int_add]

/-- An integer within `17/8` of a quantity whose `jsRoundZ` we take ends up
within `2` of that rounding (the quantities differ by an integer of absolute
value `< 3`). -/
theorem jsRoundZ_near (q : ℚ) (T : ℤ) (h : |q - (T : ℚ)| ≤ 17/8) :
    |jsRoundZ q - T| ≤ 2 := by
  have h1 := jsRoundZ_cast_le q
  have h2 := lt_jsRoundZ_cast q
  have hq : |((jsRoundZ q - T : ℤ) : ℚ)| < 3 := by
    push_cast
    rw [abs_lt]
    rw [abs_le] at h
    constructor <;> linarith
  have : |jsRoundZ q - T| < 3 := by exact_mod_cast hq
  omega

/-- Cast version of "an integer of absolute value at most `17/8` is at most
`2`". -/
theorem int_abs_le_two (n : ℤ) (h : |(n : ℚ)| ≤ 17/8) : |n| ≤ 2 := by
  have : |(n : ℚ)| < 3 := lt_of_le_of_lt h (by norm_num)
  have : |n| < 3 := by exact_mod_cast (abs_lt.mpr (abs_lt.mp this))
  omega

theorem jsRoundZ_zero : jsRoundZ 0 = 0 := by
  unfold jsRoundZ
  norm_num

theorem jsTrunc_of_nonneg {q : ℚ} (h : 0 ≤ q) : jsTrunc q = ⌊q⌋ := by
  unfold jsTrunc
  rw [if_pos h]

/-- For `0 ≤ q`, `q % 2` (JS remainder) equals `q - 2 * ⌊q / 2⌋`. -/
theorem jsRem_two_of_nonneg {q : ℚ} (h : 0 ≤ q) :
    jsRem q 2 = q - 2 * (⌊q / 2⌋ : ℚ) := by
  unfold jsRem
  rw [jsTrunc_of_nonneg (by positivity)]

theorem jsRem_two_nonneg {q : ℚ} (h : 0 ≤ q) : 0 ≤ jsRem q 2 := by
  rw [jsRem_two_of_nonneg h]
  have := Int.floor_le (q / 2)
  linarith

theorem jsRem_two_lt {q : ℚ} (h : 0 ≤ q) : jsRem q 2 < 2 := by
  rw [jsRem_two_of_nonneg h]
  have := Int.lt_floor_add_one (q / 2)
  linarith

/-- `q % 6` (JS remainder) is the identity for `|q| ≤ 1`, as in the hue
computation of `rgbToHsv`. -/
theorem jsRem_six_of_abs_le_one {q : ℚ} (h : |q| ≤ 1) : jsRem q 6 = q := by
  rw [abs_le] at h
  unfold jsRem jsTrunc
  rcases le_or_lt 0 (q / 6) with h6 | h6
  · rw [if_pos h6, Int.floor_eq_zero_iff.mpr ⟨by linarith, by linarith⟩]
    push_cast
    ring
  · rw [if_neg (not_le.mpr h6)]
    have : ⌈q / 6⌉ = 0 := by
      rw [Int.ceil_eq_zero_iff]
      constructor <;> [linarith; linarith]
    rw [this]
    push_cast
    ring

/-! ## Scaling `max`/`min` past the division by 255 -/

theorem max_div255 (a b : ℚ) : max (a / 255) (b / 255) = max a b / 255 :=
  max_div_div_right (by norm_num) a b

theorem min_div255 (a b : ℚ) : min (a / 255) (b / 255) = min a b / 255 :=
  min_div_div_right (by norm_num) a b

theorem max3_div255 (R G B : ℤ) :
    max ((R : ℚ) / 255) (max ((G : ℚ) / 255) ((B : ℚ) / 255)) =
      ((max R (max G B) : ℤ) : ℚ) / 255 := by
  rw [max_div255, max_div255]
  push_cast
  rfl

theorem min3_div255 (R G B : ℤ) :
    min ((R : ℚ) / 255) (min ((G : ℚ) / 255) ((B : ℚ) / 255)) =
      ((min R (min G B) : ℤ) : ℚ) / 255 := by
  rw [min_div255, min_div255]
  push_cast
  rfl

theorem div255_inj {a b : ℚ} : a / 255 = b / 255 ↔ a = b := by
  constructor
  · intro h
    have := congrArg (· * 255) h
    simpa using this
  · intro h
    rw [h]

/-! ## Gray inputs -/

/-- On an all-equal input, `rgbToHsv` takes none of the hue branches and the
saturation collapses to `0` in both arms of its guard. -/
theorem rgbToHsv_gray (c : ℚ) : rgbToHsv c c c = ⟨0, 0, c / 255⟩ := by
  unfold rgbToHsv
  norm_num [jsRoundZ_zero]

/-- On an all-equal input, `rgbToHsl` skips the `max !== min` block entirely. -/
theorem rgbToHsl_gray (c : ℚ) :
    rgbToHsl c c c = ⟨0, 0, jsRoundZ (c / 255 * 100)⟩ := by
  unfold rgbToHsl
  norm_num [jsRoundZ_zero]

/-- `hsvToRgb` with saturation `0`: the chroma vanishes and all three channels
are the rounded value. -/
theorem hsvToRgb_s0 (v : ℚ) :
    hsvToRgb 0 0 v = ⟨jsRoundZ (v * 255), jsRoundZ (v * 255), jsRoundZ (v * 255)⟩ := by
  unfold hsvToRgb jsRem jsTrunc
  norm_num

/-! ## `hsvToRgb` on the values produced by `rgbToHsv`

For a non-gray integer triple, `rgbToHsv` yields an integer hue `H ∈ [0,360)`,
`s = D / Mx` and `v = Mx / 255`, where `Mx`/`Mn` are the extreme channels and
`D = Mx - Mn`.  The next six lemmas evaluate `hsvToRgb` on such values, one
hue sector at a time: the chroma recovers `D / 255` exactly, the `c`- and
`0`-positions of the sector table recover `Mx` and `Mn` exactly, and the
`x`-position is `Mn` plus the rounding of a linear function of `H`. -/

theorem hsvToRgb_sector0 (H D Mn : ℤ) (h0 : 0 ≤ H) (h1 : H < 60)
    (hD : 0 < D) (hMn : 0 ≤ Mn) :
    hsvToRgb (H : ℚ) ((D : ℚ) / ((Mn + D : ℤ) : ℚ)) (((Mn + D : ℤ) : ℚ) / 255) =
      ⟨Mn + D, Mn + jsRoundZ ((D : ℚ) * (H : ℚ) / 60), Mn⟩ := by
  have hMxne : (((Mn + D : ℤ) : ℚ)) ≠ 0 := by
    have : (0 : ℤ) < Mn + D := by omega
    exact_mod_cast ne_of_gt this
  have hq0 : (0 : ℚ) ≤ (H : ℚ) / 60 := by
    have : (0 : ℚ) ≤ (H : ℚ) := by exact_mod_cast h0
    positivity
  have hq1 : (H : ℚ) / 60 < 1 := by
    rw [div_lt_one (by norm_num)]
    exact_mod_cast h1
  have hfloor : ⌊(H : ℚ) / 60 / 2⌋ = 0 := by
    rw [Int.floor_eq_zero_iff, Set.mem_Ico]
    constructor
    · positivity
    · linarith
  have hrem : jsRem ((H : ℚ) / 60) 2 = (H : ℚ) / 60 := by
    rw [jsRem_two_of_nonneg hq0, hfloor]
    norm_num
  have habs : |jsRem ((H : ℚ) / 60) 2 - 1| = 1 - (H : ℚ) / 60 := by
    rw [hrem, abs_of_nonpos (by linarith)]
    ring
  simp only [hsvToRgb]
  rw [if_pos (⟨hq0, hq1⟩ : (0 : ℚ) ≤ (H : ℚ) / 60 ∧ (H : ℚ) / 60 < 1), habs]
  simp only
  rw [RGBColor.mk.injEq]
  refine ⟨?_, ?_, ?_⟩
  · rw [show (((Mn + D : ℤ) : ℚ) / 255 * ((D : ℚ) / ((Mn + D : ℤ) : ℚ)) +
        (((Mn + D : ℤ) : ℚ) / 255 -
          ((Mn + D : ℤ) : ℚ) / 255 * ((D : ℚ) / ((Mn + D : ℤ) : ℚ)))) * 255 =
        ((Mn + D : ℤ) : ℚ) by field_simp; ring]
    exact jsRoundZ_intCast _
  · rw [show (((Mn + D : ℤ) : ℚ) / 255 * ((D : ℚ) / ((Mn + D : ℤ) : ℚ)) *
        (1 - (1 - (H : ℚ) / 60)) +
        (((Mn + D : ℤ) : ℚ) / 255 -
          ((Mn + D : ℤ) : ℚ) / 255 * ((D : ℚ) / ((Mn + D : ℤ) : ℚ)))) * 255 =
        (Mn : ℚ) + (D : ℚ) * (H : ℚ) / 60 by push_cast; field_simp; ring]
    exact jsRoundZ_int_add Mn _
  · rw [show ((0 : ℚ) +
        (((Mn + D : ℤ) : ℚ) / 255 -
          ((Mn + D : ℤ) : ℚ) / 255 * ((D : ℚ) / ((Mn + D : ℤ) : ℚ)))) * 255 =
        ((Mn : ℤ) : ℚ) by push_cast; field_simp; ring]
    exact jsRoundZ_intCast _

theorem hsvToRgb_sector1 (H D Mn : ℤ) (h0 : 60 ≤ H) (h1 : H < 120)
    (hD : 0 < D) (hMn : 0 ≤ Mn) :
    hsvToRgb (H : ℚ) ((D : ℚ) / ((Mn + D : ℤ) : ℚ)) (((Mn + D : ℤ) : ℚ) / 255) =
      ⟨Mn + jsRoundZ ((D : ℚ) * (120 - (H : ℚ)) / 60), Mn + D, Mn⟩ := by
  have hMxne : (((Mn + D : ℤ) : ℚ)) ≠ 0 := by
    have : (0 : ℤ) < Mn + D := by omega
    exact_mod_cast ne_of_gt this
  have hq : (60 : ℚ) ≤ (H : ℚ) := by exact_mod_cast h0
  have hq' : (H : ℚ) < 120 := by exact_mod_cast h1
  have hq0 : (0 : ℚ) ≤ (H : ℚ) / 60 := by linarith
  have hfloor : ⌊(H : ℚ) / 60 / 2⌋ = 0 := by
    rw [Int.floor_eq_zero_iff, Set.mem_Ico]
    constructor <;> linarith
  have hrem : jsRem ((H : ℚ) / 60) 2 = (H : ℚ) / 60 := by
    rw [jsRem_two_of_nonneg hq0, hfloor]
    norm_num
  have habs : |jsRem ((H : ℚ) / 60) 2 - 1| = (H : ℚ) / 60 - 1 := by
    rw [hrem, abs_of_nonneg (by linarith)]
  have hC1 : ¬((0 : ℚ) ≤ (H : ℚ) / 60 ∧ (H : ℚ) / 60 < 1) :=
    fun hc => absurd hc.2 (not_lt.mpr (by linarith))
  have hC2 : (H : ℚ) / 60 < 2 := by linarith
  simp only [hsvToRgb]
  rw [if_neg hC1, if_pos hC2, habs]
  simp only
  rw [RGBColor.mk.injEq]
  refine ⟨?_, ?_, ?_⟩
  · calc jsRoundZ _ = jsRoundZ ((Mn : ℚ) + (D : ℚ) * (120 - (H : ℚ)) / 60) := by
          congr 1
          push_cast
          field_simp
          ring
      _ = Mn + jsRoundZ ((D : ℚ) * (120 - (H : ℚ)) / 60) := jsRoundZ_int_add Mn _
  · calc jsRoundZ _ = jsRoundZ ((Mn + D : ℤ) : ℚ) := by
          congr 1
          push_cast
          field_simp
          ring
      _ = Mn + D := jsRoundZ_intCast _
  · calc jsRoundZ _ = jsRoundZ ((Mn : ℤ) : ℚ) := by
          congr 1
          push_cast
          field_simp
          ring
      _ = Mn := jsRoundZ_intCast _

theorem hsvToRgb_sector2 (H D Mn : ℤ) (h0 : 120 ≤ H) (h1 : H < 180)
    (hD : 0 < D) (hMn : 0 ≤ Mn) :
    hsvToRgb (H : ℚ) ((D : ℚ) / ((Mn + D : ℤ) : ℚ)) (((Mn + D : ℤ) : ℚ) / 255) =
      ⟨Mn, Mn + D, Mn + jsRoundZ ((D : ℚ) * ((H : ℚ) - 120) / 60)⟩ := by
  have hMxne : (((Mn + D : ℤ) : ℚ)) ≠ 0 := by
    have : (0 : ℤ) < Mn + D := by omega
    exact_mod_cast ne_of_gt this
  have hq : (120 : ℚ) ≤ (H : ℚ) := by exact_mod_cast h0
  have hq' : (H : ℚ) < 180 := by exact_mod_cast h1
  have hq0 : (0 : ℚ) ≤ (H : ℚ) / 60 := by linarith
  have hfloor : ⌊(H : ℚ) / 60 / 2⌋ = 1 := by
    rw [Int.floor_eq_iff]
    push_cast
    constructor <;> linarith
  have hrem : jsRem ((H : ℚ) / 60) 2 = (H : ℚ) / 60 - 2 := by
    rw [jsRem_two_of_nonneg hq0, hfloor]
    push_cast
    ring
  have habs : |jsRem ((H : ℚ) / 60) 2 - 1| = 3 - (H : ℚ) / 60 := by
    rw [hrem, abs_of_nonpos (by linarith)]
    ring
  have hC1 : ¬((0 : ℚ) ≤ (H : ℚ) / 60 ∧ (H : ℚ) / 60 < 1) :=
    fun hc => absurd hc.2 (not_lt.mpr (by linarith))
  have hC2 : ¬((H : ℚ) / 60 < 2) := not_lt.mpr (by linarith)
  have hC3 : (H : ℚ) / 60 < 3 := by linarith
  simp only [hsvToRgb]
  rw [if_neg hC1, if_neg hC2, if_pos hC3, habs]
  simp only
  rw [RGBColor.mk.injEq]
  refine ⟨?_, ?_, ?_⟩
  · calc jsRoundZ _ = jsRoundZ ((Mn : ℤ) : ℚ) := by
          congr 1
          push_cast
          field_simp
          ring
      _ = Mn := jsRoundZ_intCast _
  · calc jsRoundZ _ = jsRoundZ ((Mn + D : ℤ) : ℚ) := by
          congr 1
          push_cast
          field_simp
          ring
      _ = Mn + D := jsRoundZ_intCast _
  · calc jsRoundZ _ = jsRoundZ ((Mn : ℚ) + (D : ℚ) * ((H : ℚ) - 120) / 60) := by
          congr 1
          push_cast
          field_simp
          ring
      _ = Mn + jsRoundZ ((D : ℚ) * ((H : ℚ) - 120) / 60) := jsRoundZ_int_add Mn _

theorem hsvToRgb_sector3 (H D Mn : ℤ) (h0 : 180 ≤ H) (h1 : H < 240)
    (hD : 0 < D) (hMn : 0 ≤ Mn) :
    hsvToRgb (H : ℚ) ((D : ℚ) / ((Mn + D : ℤ) : ℚ)) (((Mn + D : ℤ) : ℚ) / 255) =
      ⟨Mn, Mn + jsRoundZ ((D : ℚ) * (240 - (H : ℚ)) / 60), Mn + D⟩ := by
  have hMxne : (((Mn + D : ℤ) : ℚ)) ≠ 0 := by
    have : (0 : ℤ) < Mn + D := by omega
    exact_mod_cast ne_of_gt this
  have hq : (180 : ℚ) ≤ (H : ℚ) := by exact_mod_cast h0
  have hq' : (H : ℚ) < 240 := by exact_mod_cast h1
  have hq0 : (0 : ℚ) ≤ (H : ℚ) / 60 := by linarith
  have hfloor : ⌊(H : ℚ) / 60 / 2⌋ = 1 := by
    rw [Int.floor_eq_iff]
    push_cast
    constructor <;> linarith
  have hrem : jsRem ((H : ℚ) / 60) 2 = (H : ℚ) / 60 - 2 := by
    rw [jsRem_two_of_nonneg hq0, hfloor]
    push_cast
    ring
  have habs : |jsRem ((H : ℚ) / 60) 2 - 1| = (H : ℚ) / 60 - 3 := by
    rw [hrem, abs_of_nonneg (by linarith)]
    ring
  have hC1 : ¬((0 : ℚ) ≤ (H : ℚ) / 60 ∧ (H : ℚ) / 60 < 1) :=
    fun hc => absurd hc.2 (not_lt.mpr (by linarith))
  have hC2 : ¬((H : ℚ) / 60 < 2) := not_lt.mpr (by linarith)
  have hC3 : ¬((H : ℚ) / 60 < 3) := not_lt.mpr (by linarith)
  have hC4 : (H : ℚ) / 60 < 4 := by linarith
  simp only [hsvToRgb]
  rw [if_neg hC1, if_neg hC2, if_neg hC3, if_pos hC4, habs]
  simp only
  rw [RGBColor.mk.injEq]
  refine ⟨?_, ?_, ?_⟩
  · calc jsRoundZ _ = jsRoundZ ((Mn : ℤ) : ℚ) := by
          congr 1
          push_cast
          field_simp
          ring
      _ = Mn := jsRoundZ_intCast _
  · calc jsRoundZ _ = jsRoundZ ((Mn : ℚ) + (D : ℚ) * (240 - (H : ℚ)) / 60) := by
          congr 1
          push_cast
          field_simp
          ring
      _ = Mn + jsRoundZ ((D : ℚ) * (240 - (H : ℚ)) / 60) := jsRoundZ_int_add Mn _
  · calc jsRoundZ _ = jsRoundZ ((Mn + D : ℤ) : ℚ) := by
          congr 1
          push_cast
          field_simp
          ring
      _ = Mn + D := jsRoundZ_intCast _

theorem hsvToRgb_sector4 (H D Mn : ℤ) (h0 : 240 ≤ H) (h1 : H < 300)
    (hD : 0 < D) (hMn : 0 ≤ Mn) :
    hsvToRgb (H : ℚ) ((D : ℚ) / ((Mn + D : ℤ) : ℚ)) (((Mn + D : ℤ) : ℚ) / 255) =
      ⟨Mn + jsRoundZ ((D : ℚ) * ((H : ℚ) - 240) / 60), Mn, Mn + D⟩ := by
  have hMxne : (((Mn + D : ℤ) : ℚ)) ≠ 0 := by
    have : (0 : ℤ) < Mn + D := by omega
    exact_mod_cast ne_of_gt this
  have hq : (240 : ℚ) ≤ (H : ℚ) := by exact_mod_cast h0
  have hq' : (H : ℚ) < 300 := by exact_mod_cast h1
  have hq0 : (0 : ℚ) ≤ (H : ℚ) / 60 := by linarith
  have hfloor : ⌊(H : ℚ) / 60 / 2⌋ = 2 := by
    rw [Int.floor_eq_iff]
    push_cast
    constructor <;> linarith
  have hrem : jsRem ((H : ℚ) / 60) 2 = (H : ℚ) / 60 - 4 := by
    rw [jsRem_two_of_nonneg hq0, hfloor]
    push_cast
    ring
  have habs : |jsRem ((H : ℚ) / 60) 2 - 1| = 5 - (H : ℚ) / 60 := by
    rw [hrem, abs_of_nonpos (by linarith)]
    ring
  have hC1 : ¬((0 : ℚ) ≤ (H : ℚ) / 60 ∧ (H : ℚ) / 60 < 1) :=
    fun hc => absurd hc.2 (not_lt.mpr (by linarith))
  have hC2 : ¬((H : ℚ) / 60 < 2) := not_lt.mpr (by linarith)
  have hC3 : ¬((H : ℚ) / 60 < 3) := not_lt.mpr (by linarith)
  have hC4 : ¬((H : ℚ) / 60 < 4) := not_lt.mpr (by linarith)
  have hC5 : (H : ℚ) / 60 < 5 := by linarith
  simp only [hsvToRgb]
  rw [if_neg hC1, if_neg hC2, if_neg hC3, if_neg hC4, if_pos hC5, habs]
  simp only
  rw [RGBColor.mk.injEq]
  refine ⟨?_, ?_, ?_⟩
  · calc jsRoundZ _ = jsRoundZ ((Mn : ℚ) + (D : ℚ) * ((H : ℚ) - 240) / 60) := by
          congr 1
          push_cast
          field_simp
          ring
      _ = Mn + jsRoundZ ((D : ℚ) * ((H : ℚ) - 240) / 60) := jsRoundZ_int_add Mn _
  · calc jsRoundZ _ = jsRoundZ ((Mn : ℤ) : ℚ) := by
          congr 1
          push_cast
          field_simp
          ring
      _ = Mn := jsRoundZ_intCast _
  · calc jsRoundZ _ = jsRoundZ ((Mn + D : ℤ) : ℚ) := by
          congr 1
          push_cast
          field_simp
          ring
      _ = Mn + D := jsRoundZ_intCast _

theorem hsvToRgb_sector5 (H D Mn : ℤ) (h0 : 300 ≤ H) (h1 : H < 360)
    (hD : 0 < D) (hMn : 0 ≤ Mn) :
    hsvToRgb (H : ℚ) ((D : ℚ) / ((Mn + D : ℤ) : ℚ)) (((Mn + D : ℤ) : ℚ) / 255) =
      ⟨Mn + D, Mn, Mn + jsRoundZ ((D : ℚ) * (360 - (H : ℚ)) / 60)⟩ := by
  have hMxne : (((Mn + D : ℤ) : ℚ)) ≠ 0 := by
    have : (0 : ℤ) < Mn + D := by omega
    exact_mod_cast ne_of_gt this
  have hq : (300 : ℚ) ≤ (H : ℚ) := by exact_mod_cast h0
  have hq' : (H : ℚ) < 360 := by exact_mod_cast h1
  have hq0 : (0 : ℚ) ≤ (H : ℚ) / 60 := by linarith
  have hfloor : ⌊(H : ℚ) / 60 / 2⌋ = 2 := by
    rw [Int.floor_eq_iff]
    push_cast
    constructor <;> linarith
  have hrem : jsRem ((H : ℚ) / 60) 2 = (H : ℚ) / 60 - 4 := by
    rw [jsRem_two_of_nonneg hq0, hfloor]
    push_cast
    ring
  have habs : |jsRem ((H : ℚ) / 60) 2 - 1| = (H : ℚ) / 60 - 5 := by
    rw [hrem, abs_of_nonneg (by linarith)]
    ring
  have hC1 : ¬((0 : ℚ) ≤ (H : ℚ) / 60 ∧ (H : ℚ) / 60 < 1) :=
    fun hc => absurd hc.2 (not_lt.mpr (by linarith))
  have hC2 : ¬((H : ℚ) / 60 < 2) := not_lt.mpr (by linarith)
  have hC3 : ¬((H : ℚ) / 60 < 3) := not_lt.mpr (by linarith)
  have hC4 : ¬((H : ℚ) / 60 < 4) := not_lt.mpr (by linarith)
  have hC5 : ¬((H : ℚ) / 60 < 5) := not_lt.mpr (by linarith)
  simp only [hsvToRgb]
  rw [if_neg hC1, if_neg hC2, if_neg hC3, if_neg hC4, if_neg hC5, habs]
  simp only
  rw [RGBColor.mk.injEq]
  refine ⟨?_, ?_, ?_⟩
  · calc jsRoundZ _ = jsRoundZ ((Mn + D : ℤ) : ℚ) := by
          congr 1
          push_cast
          field_simp
          ring
      _ = Mn + D := jsRoundZ_intCast _
  · calc jsRoundZ _ = jsRoundZ ((Mn : ℤ) : ℚ) := by
          congr 1
          push_cast
          field_simp
          ring
      _ = Mn := jsRoundZ_intCast _
  · calc jsRoundZ _ = jsRoundZ ((Mn : ℚ) + (D : ℚ) * (360 - (H : ℚ)) / 60) := by
          congr 1
          push_cast
          field_simp
          ring
      _ = Mn + jsRoundZ ((D : ℚ) * (360 - (H : ℚ)) / 60) := jsRoundZ_int_add Mn _

/-! ## `rgbToHsv` on non-gray integer triples, by maximal channel -/

/-- `rgbToHsv` when the red channel is (weakly) maximal: the `max === r`
branch is taken, the `% 6` is the identity, and the hue is the rounding of
`60 * (G - B) / D`, wrapped if negative. -/
theorem rgbToHsv_case_r (R G B : ℤ) (hG : G ≤ R) (hB : B ≤ R)
    (hne : min G B < R) (hMn0 : 0 ≤ min G B) :
    rgbToHsv (R : ℚ) (G : ℚ) (B : ℚ) =
      ⟨(wrapH (jsRoundZ (((G : ℚ) - (B : ℚ)) / ((R - min G B : ℤ) : ℚ) * 60)) : ℚ),
        ((R - min G B : ℤ) : ℚ) / (R : ℚ), (R : ℚ) / 255⟩ := by
  have hMx : max R (max G B) = R := max_eq_left (max_le hG hB)
  have hMnEq : min R (min G B) = min G B :=
    min_eq_right (le_trans (min_le_left G B) hG)
  have hDpos : (0 : ℚ) < ((R - min G B : ℤ) : ℚ) := by
    have : (0 : ℤ) < R - min G B := by omega
    exact_mod_cast this
  have hdiff : (R : ℚ) / 255 - ((min G B : ℤ) : ℚ) / 255 ≠ 0 := by
    intro hEq
    have h1 : (R : ℚ) / 255 = ((min G B : ℤ) : ℚ) / 255 := by linarith
    have h2 : (R : ℚ) = ((min G B : ℤ) : ℚ) := div255_inj.mp h1
    have : R = min G B := by exact_mod_cast h2
    omega
  have hdivEq : ((G : ℚ) / 255 - (B : ℚ) / 255) /
      ((R : ℚ) / 255 - ((min G B : ℤ) : ℚ) / 255) =
      ((G : ℚ) - (B : ℚ)) / ((R - min G B : ℤ) : ℚ) := by
    rw [div_eq_div_iff hdiff (ne_of_gt hDpos)]
    push_cast
    ring
  have habs1 : |((G : ℚ) - (B : ℚ)) / ((R - min G B : ℤ) : ℚ)| ≤ 1 := by
    rw [abs_div, abs_of_pos hDpos, div_le_one hDpos]
    have : |G - B| ≤ R - min G B := by
      rcases abs_cases (G - B) with ⟨hEq, _⟩ | ⟨hEq, _⟩ <;> omega
    calc |(G : ℚ) - (B : ℚ)| = |((G - B : ℤ) : ℚ)| := by push_cast; ring_nf
      _ = (|G - B| : ℤ) := by rw [Int.cast_abs]
      _ ≤ ((R - min G B : ℤ) : ℚ) := by exact_mod_cast this
  have hmxne : ¬((R : ℚ) / 255 = 0) := by
    intro hEq
    have : (R : ℚ) = 0 := by linarith
    have : R = 0 := by exact_mod_cast this
    omega
  have hsEq : ((R : ℚ) / 255 - ((min G B : ℤ) : ℚ) / 255) / ((R : ℚ) / 255) =
      ((R - min G B : ℤ) : ℚ) / (R : ℚ) := by
    have hRne : (R : ℚ) ≠ 0 := fun hEq => hmxne (by rw [hEq]; norm_num)
    rw [div_eq_div_iff (by positivity) hRne]
    push_cast
    ring
  simp only [rgbToHsv, max3_div255, min3_div255, hMx, hMnEq]
  rw [if_pos hdiff, if_pos trivial, hdivEq, jsRem_six_of_abs_le_one habs1,
    if_neg hmxne, hsEq]
  rfl

/-- `rgbToHsv` when the green channel is strictly above red and weakly above
blue: `max === r` fails, `max === g` is taken, hue is the rounding of
`60 * ((B - R) / D + 2)`. -/
theorem rgbToHsv_case_g (R G B : ℤ) (hRG : R < G) (hBG : B ≤ G)
    (hMn0 : 0 ≤ min R B) :
    rgbToHsv (R : ℚ) (G : ℚ) (B : ℚ) =
      ⟨(wrapH (jsRoundZ ((((B : ℚ) - (R : ℚ)) / ((G - min R B : ℤ) : ℚ) + 2) * 60)) : ℚ),
        ((G - min R B : ℤ) : ℚ) / (G : ℚ), (G : ℚ) / 255⟩ := by
  have hMx : max R (max G B) = G := by
    rw [max_eq_left hBG]
    exact max_eq_right (le_of_lt hRG)
  have hMnEq : min R (min G B) = min R B := by
    rw [min_eq_right hBG]
  have hDpos : (0 : ℚ) < ((G - min R B : ℤ) : ℚ) := by
    have : (0 : ℤ) < G - min R B := by omega
    exact_mod_cast this
  have hdiff : (G : ℚ) / 255 - ((min R B : ℤ) : ℚ) / 255 ≠ 0 := by
    intro hEq
    have h1 : (G : ℚ) / 255 = ((min R B : ℤ) : ℚ) / 255 := by linarith
    have h2 : (G : ℚ) = ((min R B : ℤ) : ℚ) := div255_inj.mp h1
    have : G = min R B := by exact_mod_cast h2
    omega
  have hmxr : ¬((G : ℚ) / 255 = (R : ℚ) / 255) := by
    intro hEq
    have : (G : ℚ) = (R : ℚ) := div255_inj.mp hEq
    have : G = R := by exact_mod_cast this
    omega
  have hdivEq : ((B : ℚ) / 255 - (R : ℚ) / 255) /
      ((G : ℚ) / 255 - ((min R B : ℤ) : ℚ) / 255) =
      ((B : ℚ) - (R : ℚ)) / ((G - min R B : ℤ) : ℚ) := by
    rw [div_eq_div_iff hdiff (ne_of_gt hDpos)]
    push_cast
    ring
  have hmxne : ¬((G : ℚ) / 255 = 0) := by
    intro hEq
    have : (G : ℚ) = 0 := by linarith
    have : G = 0 := by exact_mod_cast this
    omega
  have hsEq : ((G : ℚ) / 255 - ((min R B : ℤ) : ℚ) / 255) / ((G : ℚ) / 255) =
      ((G - min R B : ℤ) : ℚ) / (G : ℚ) := by
    have hGne : (G : ℚ) ≠ 0 := fun hEq => hmxne (by rw [hEq]; norm_num)
    rw [div_eq_div_iff (by positivity) hGne]
    push_cast
    ring
  simp only [rgbToHsv, max3_div255, min3_div255, hMx, hMnEq]
  rw [if_pos hdiff, if_neg hmxr, if_pos trivial, hdivEq, if_neg hmxne, hsEq]
  rfl

/-- `rgbToHsv` when the blue channel is strictly maximal: both `max === r`
and `max === g` fail, hue is the rounding of `60 * ((R - G) / D + 4)`. -/
theorem rgbToHsv_case_b (R G B : ℤ) (hRB : R < B) (hGB : G < B)
    (hMn0 : 0 ≤ min R G) :
    rgbToHsv (R : ℚ) (G : ℚ) (B : ℚ) =
      ⟨(wrapH (jsRoundZ ((((R : ℚ) - (G : ℚ)) / ((B - min R G : ℤ) : ℚ) + 4) * 60)) : ℚ),
        ((B - min R G : ℤ) : ℚ) / (B : ℚ), (B : ℚ) / 255⟩ := by
  have hMx : max R (max G B) = B := by
    rw [max_eq_right (le_of_lt hGB)]
    exact max_eq_right (le_of_lt hRB)
  have hMnEq : min R (min G B) = min R G := by
    rw [min_eq_left (le_of_lt hGB)]
  have hDpos : (0 : ℚ) < ((B - min R G : ℤ) : ℚ) := by
    have : (0 : ℤ) < B - min R G := by omega
    exact_mod_cast this
  have hdiff : (B : ℚ) / 255 - ((min R G : ℤ) : ℚ) / 255 ≠ 0 := by
    intro hEq
    have h1 : (B : ℚ) / 255 = ((min R G : ℤ) : ℚ) / 255 := by linarith
    have h2 : (B : ℚ) = ((min R G : ℤ) : ℚ) := div255_inj.mp h1
    have : B = min R G := by exact_mod_cast h2
    omega
  have hmxr : ¬((B : ℚ) / 255 = (R : ℚ) / 255) := by
    intro hEq
    have : (B : ℚ) = (R : ℚ) := div255_inj.mp hEq
    have : B = R := by exact_mod_cast this
    omega
  have hmxg : ¬((B : ℚ) / 255 = (G : ℚ) / 255) := by
    intro hEq
    have : (B : ℚ) = (G : ℚ) := div255_inj.mp hEq
    have : B = G := by exact_mod_cast this
    omega
  have hdivEq : ((R : ℚ) / 255 - (G : ℚ) / 255) /
      ((B : ℚ) / 255 - ((min R G : ℤ) : ℚ) / 255) =
      ((R : ℚ) - (G : ℚ)) / ((B - min R G : ℤ) : ℚ) := by
    rw [div_eq_div_iff hdiff (ne_of_gt hDpos)]
    push_cast
    ring
  have hmxne : ¬((B : ℚ) / 255 = 0) := by
    intro hEq
    have : (B : ℚ) = 0 := by linarith
    have : B = 0 := by exact_mod_cast this
    omega
  have hsEq : ((B : ℚ) / 255 - ((min R G : ℤ) : ℚ) / 255) / ((B : ℚ) / 255) =
      ((B - min R G : ℤ) : ℚ) / (B : ℚ) := by
    have hBne : (B : ℚ) ≠ 0 := fun hEq => hmxne (by rw [hEq]; norm_num)
    rw [div_eq_div_iff (by positivity) hBne]
    push_cast
    ring
  simp only [rgbToHsv, max3_div255, min3_div255, hMx, hMnEq]
  rw [if_pos hdiff, if_neg hmxr, if_neg hmxg, hdivEq, if_neg hmxne, hsEq]
  rfl

/-! ## Bounding the mid channel after hue rounding -/

theorem jsRoundZ_nonneg {q : ℚ} (h : 0 ≤ q) : 0 ≤ jsRoundZ q := by
  have h1 := lt_jsRoundZ_cast q
  have h2 : ((-1 : ℤ) : ℚ) < (jsRoundZ q : ℚ) := by push_cast; linarith
  have h3 : (-1 : ℤ) < jsRoundZ q := by exact_mod_cast h2
  omega

theorem jsRoundZ_nonpos {q : ℚ} (h : q ≤ 0) : jsRoundZ q ≤ 0 := by
  have h1 := jsRoundZ_cast_le q
  have h2 : (jsRoundZ q : ℚ) < ((1 : ℤ) : ℚ) := by push_cast; linarith
  have h3 : jsRoundZ q < 1 := by exact_mod_cast h2
  omega

/-- The reconstructed mid-channel offset `jsRoundZ (D * w / 60)` lies within
`2` of the true offset `T` whenever `w` is within `1/2` of the exact scaled
hue `u` with `D * u / 60 = T` (hue rounding moves the offset by at most
`255/120`, and the final channel rounding by at most `1/2` more; the
difference is an integer, hence at most `2`). -/
theorem hue_round_mid (D T : ℤ) (u w : ℚ) (hD : 0 < D) (hD255 : D ≤ 255)
    (hT : (D : ℚ) * u / 60 = (T : ℚ)) (hw : |w - u| ≤ 1/2) :
    |jsRoundZ ((D : ℚ) * w / 60) - T| ≤ 2 := by
  apply jsRoundZ_near
  have hrw : (D : ℚ) * w / 60 - (T : ℚ) = (D : ℚ) * (w - u) / 60 := by
    rw [← hT]
    ring
  rw [hrw, abs_div, abs_mul]
  have hDq : |(D : ℚ)| = (D : ℚ) := abs_of_pos (by exact_mod_cast hD)
  have h60 : |(60 : ℚ)| = 60 := by norm_num
  rw [hDq, h60]
  have hD' : (D : ℚ) ≤ 255 := by exact_mod_cast hD255
  have hDnn : (0 : ℚ) ≤ (D : ℚ) := by positivity
  have hmul : (D : ℚ) * |w - u| ≤ 255 * (1/2) := by
    calc (D : ℚ) * |w - u| ≤ 255 * |w - u| := by
          apply mul_le_mul_of_nonneg_right hD' (abs_nonneg _)
      _ ≤ 255 * (1/2) := by linarith
  linarith


/-- A scaled hue displacement of at most `1/2` moves a channel by at most
`255/120 ≤ 17/8`. -/
theorem hue_scale_small (D : ℤ) (A : ℚ) (hD : 0 < D) (hD255 : D ≤ 255)
    (hA : |A| ≤ 1/2) : |(D : ℚ) * A / 60| ≤ 17/8 := by
  rw [abs_div, abs_mul]
  have hDq : |(D : ℚ)| = (D : ℚ) := abs_of_pos (by exact_mod_cast hD)
  have h60 : |(60 : ℚ)| = 60 := by norm_num
  rw [hDq, h60]
  have hD' : (D : ℚ) ≤ 255 := by exact_mod_cast hD255
  have hDnn : (0 : ℚ) ≤ (D : ℚ) := by positivity
  have hmul : (D : ℚ) * |A| ≤ 255 * (1/2) := by
    calc (D : ℚ) * |A| ≤ 255 * |A| := mul_le_mul_of_nonneg_right hD' (abs_nonneg _)
      _ ≤ 255 * (1/2) := by linarith
  linarith

theorem add_sub_shift (a b n : ℤ) : a + n - b = n - (b - a) := by ring

set_option maxHeartbeats 1000000 in
/-- Round-trip bound, `max === r` branch (red weakly maximal, non-gray). -/
theorem roundtrip_max_r (R G B : ℤ) (hR1 : R ≤ 255) (hG0 : 0 ≤ G) (hB0 : 0 ≤ B)
    (hGR : G ≤ R) (hBR : B ≤ R) (hne : min G B < R) :
    |(hsvToRgb (rgbToHsv (R : ℚ) (G : ℚ) (B : ℚ)).h
        (rgbToHsv (R : ℚ) (G : ℚ) (B : ℚ)).s
        (rgbToHsv (R : ℚ) (G : ℚ) (B : ℚ)).v).r - R| ≤ 2 ∧
    |(hsvToRgb (rgbToHsv (R : ℚ) (G : ℚ) (B : ℚ)).h
        (rgbToHsv (R : ℚ) (G : ℚ) (B : ℚ)).s
        (rgbToHsv (R : ℚ) (G : ℚ) (B : ℚ)).v).g - G| ≤ 2 ∧
    |(hsvToRgb (rgbToHsv (R : ℚ) (G : ℚ) (B : ℚ)).h
        (rgbToHsv (R : ℚ) (G : ℚ) (B : ℚ)).s
        (rgbToHsv (R : ℚ) (G : ℚ) (B : ℚ)).v).b - B| ≤ 2 := by
  have hMn0 : 0 ≤ min G B := by omega
  have hconv := rgbToHsv_case_r R G B hGR hBR hne hMn0
  rcases le_or_lt B G with hBleG | hGltB
  · -- min is B; the exact scaled hue lies in [0, 60]
    have hMnB : min G B = B := min_eq_right hBleG
    rw [hMnB] at hconv
    simp only [hconv]
    have hDpos : (0 : ℤ) < R - B := by omega
    have hD255 : R - B ≤ 255 := by omega
    have hDcast : (0 : ℚ) < ((R - B : ℤ) : ℚ) := by exact_mod_cast hDpos
    have hMnD : B + (R - B) = R := by ring
    have hexact : ((R - B : ℤ) : ℚ) *
        (((G : ℚ) - (B : ℚ)) / ((R - B : ℤ) : ℚ) * 60) / 60 =
        (G : ℚ) - (B : ℚ) := by
      rw [show ((R - B : ℤ) : ℚ) *
          (((G : ℚ) - (B : ℚ)) / ((R - B : ℤ) : ℚ) * 60) / 60 =
          ((G : ℚ) - (B : ℚ)) / ((R - B : ℤ) : ℚ) * ((R - B : ℤ) : ℚ)
          from by ring]
      exact div_mul_cancel₀ _ (ne_of_gt hDcast)
    have hround := abs_jsRoundZ_sub_le
      (((G : ℚ) - (B : ℚ)) / ((R - B : ℤ) : ℚ) * 60)
    have hA0 : (0 : ℚ) ≤ ((G : ℚ) - (B : ℚ)) / ((R - B : ℤ) : ℚ) * 60 := by
      have h1 : (0 : ℚ) ≤ (G : ℚ) - (B : ℚ) := by
        have : (B : ℚ) ≤ (G : ℚ) := by exact_mod_cast hBleG
        linarith
      positivity
    have hAle : ((G : ℚ) - (B : ℚ)) / ((R - B : ℤ) : ℚ) * 60 ≤ 60 := by
      have hnum : (G : ℚ) - (B : ℚ) ≤ ((R - B : ℤ) : ℚ) := by
        push_cast
        have : (G : ℚ) ≤ (R : ℚ) := by exact_mod_cast hGR
        linarith
      have hq : ((G : ℚ) - (B : ℚ)) / ((R - B : ℤ) : ℚ) ≤ 1 :=
        (div_le_one hDcast).mpr hnum
      linarith
    have hnonneg : 0 ≤ jsRoundZ (((G : ℚ) - (B : ℚ)) / ((R - B : ℤ) : ℚ) * 60) :=
      jsRoundZ_nonneg hA0
    have h1le : jsRoundZ (((G : ℚ) - (B : ℚ)) / ((R - B : ℤ) : ℚ) * 60) ≤ 60 := by
      have hle := jsRoundZ_cast_le (((G : ℚ) - (B : ℚ)) / ((R - B : ℤ) : ℚ) * 60)
      have hc : (jsRoundZ (((G : ℚ) - (B : ℚ)) / ((R - B : ℤ) : ℚ) * 60) : ℚ) <
          (61 : ℚ) := by linarith
      have : jsRoundZ (((G : ℚ) - (B : ℚ)) / ((R - B : ℤ) : ℚ) * 60) < (61 : ℤ) := by
        exact_mod_cast hc
      omega
    have hwrap : wrapH (jsRoundZ (((G : ℚ) - (B : ℚ)) / ((R - B : ℤ) : ℚ) * 60)) =
        jsRoundZ (((G : ℚ) - (B : ℚ)) / ((R - B : ℤ) : ℚ) * 60) := by
      unfold wrapH
      rw [if_neg (not_lt.mpr hnonneg)]
    rw [hwrap]
    rcases lt_or_le
        (jsRoundZ (((G : ℚ) - (B : ℚ)) / ((R - B : ℤ) : ℚ) * 60)) 60
      with h60 | h60
    · -- sector 0
      have hsec := hsvToRgb_sector0
        (jsRoundZ (((G : ℚ) - (B : ℚ)) / ((R - B : ℤ) : ℚ) * 60))
        (R - B) B hnonneg h60 hDpos hB0
      rw [hMnD] at hsec
      simp only [hsec]
      refine ⟨by simp, ?_, by simp⟩
      rw [add_sub_shift]
      apply hue_round_mid (R - B) (G - B)
        (((G : ℚ) - (B : ℚ)) / ((R - B : ℤ) : ℚ) * 60) _ hDpos hD255
      · rw [hexact]
        push_cast
        ring
      · exact hround
    · -- boundary sector 1 (rounded hue exactly 60)
      have h1eq : jsRoundZ (((G : ℚ) - (B : ℚ)) / ((R - B : ℤ) : ℚ) * 60) = 60 :=
        le_antisymm h1le h60
      rw [h1eq]
      have hsec := hsvToRgb_sector1 60 (R - B) B (by omega) (by omega) hDpos hB0
      rw [hMnD] at hsec
      simp only [hsec]
      rw [h1eq] at hround
      rw [show ((60 : ℤ) : ℚ) = (60 : ℚ) from by norm_num] at hround
      rw [abs_le] at hround
      refine ⟨?_, ?_, by simp⟩
      · have hinner : ((R - B : ℤ) : ℚ) * (120 - ((60 : ℤ) : ℚ)) / 60 =
            ((R - B : ℤ) : ℚ) := by
          push_cast
          ring
        rw [hinner, jsRoundZ_intCast]
        rw [show B + (R - B) - R = 0 from by ring]
        simp
      · apply int_abs_le_two
        have hval : ((R - G : ℤ) : ℚ) = ((R - B : ℤ) : ℚ) *
            (60 - ((G : ℚ) - (B : ℚ)) / ((R - B : ℤ) : ℚ) * 60) / 60 := by
          rw [show ((R - B : ℤ) : ℚ) *
              (60 - ((G : ℚ) - (B : ℚ)) / ((R - B : ℤ) : ℚ) * 60) / 60 =
              ((R - B : ℤ) : ℚ) -
              ((R - B : ℤ) : ℚ) *
                (((G : ℚ) - (B : ℚ)) / ((R - B : ℤ) : ℚ) * 60) / 60 from by ring,
            hexact]
          push_cast
          ring
        rw [hval]
        apply hue_scale_small (R - B) _ hDpos hD255
        rw [abs_le]
        constructor <;> linarith [hround.1, hround.2]
  · -- min is G; the exact scaled hue lies in [-60, 0)
    have hMnG : min G B = G := min_eq_left (le_of_lt hGltB)
    rw [hMnG] at hconv
    simp only [hconv]
    have hDpos : (0 : ℤ) < R - G := by omega
    have hD255 : R - G ≤ 255 := by omega
    have hDcast : (0 : ℚ) < ((R - G : ℤ) : ℚ) := by exact_mod_cast hDpos
    have hMnD : G + (R - G) = R := by ring
    have hexact : ((R - G : ℤ) : ℚ) *
        (((G : ℚ) - (B : ℚ)) / ((R - G : ℤ) : ℚ) * 60) / 60 =
        (G : ℚ) - (B : ℚ) := by
      rw [show ((R - G : ℤ) : ℚ) *
          (((G : ℚ) - (B : ℚ)) / ((R - G : ℤ) : ℚ) * 60) / 60 =
          ((G : ℚ) - (B : ℚ)) / ((R - G : ℤ) : ℚ) * ((R - G : ℤ) : ℚ)
          from by ring]
      exact div_mul_cancel₀ _ (ne_of_gt hDcast)
    have hround := abs_jsRoundZ_sub_le
      (((G : ℚ) - (B : ℚ)) / ((R - G : ℤ) : ℚ) * 60)
    have hAneg : ((G : ℚ) - (B : ℚ)) / ((R - G : ℤ) : ℚ) * 60 ≤ 0 := by
      have h1 : (G : ℚ) - (B : ℚ) ≤ 0 := by
        have : (G : ℚ) < (B : ℚ) := by exact_mod_cast hGltB
        linarith
      have h2 : ((G : ℚ) - (B : ℚ)) / ((R - G : ℤ) : ℚ) ≤ 0 :=
        div_nonpos_of_nonpos_of_nonneg h1 (le_of_lt hDcast)
      linarith
    have hAge : (-60 : ℚ) ≤ ((G : ℚ) - (B : ℚ)) / ((R - G : ℤ) : ℚ) * 60 := by
      have hnum : -((R - G : ℤ) : ℚ) ≤ (G : ℚ) - (B : ℚ) := by
        push_cast
        have h2 : (B : ℚ) ≤ (R : ℚ) := by exact_mod_cast hBR
        linarith
      have hq : (-1 : ℚ) ≤ ((G : ℚ) - (B : ℚ)) / ((R - G : ℤ) : ℚ) := by
        rw [neg_le, ← neg_div]
        apply (div_le_one hDcast).mpr
        linarith
      linarith
    have h1le0 : jsRoundZ (((G : ℚ) - (B : ℚ)) / ((R - G : ℤ) : ℚ) * 60) ≤ 0 :=
      jsRoundZ_nonpos hAneg
    have h1ge : -60 ≤ jsRoundZ (((G : ℚ) - (B : ℚ)) / ((R - G : ℤ) : ℚ) * 60) := by
      have hlt := lt_jsRoundZ_cast (((G : ℚ) - (B : ℚ)) / ((R - G : ℤ) : ℚ) * 60)
      have hc : (-61 : ℚ) <
          (jsRoundZ (((G : ℚ) - (B : ℚ)) / ((R - G : ℤ) : ℚ) * 60) : ℚ) := by
        linarith
      have : (-61 : ℤ) < jsRoundZ (((G : ℚ) - (B : ℚ)) / ((R - G : ℤ) : ℚ) * 60) := by
        exact_mod_cast hc
      omega
    rcases lt_or_le
        (jsRoundZ (((G : ℚ) - (B : ℚ)) / ((R - G : ℤ) : ℚ) * 60)) 0
      with hneg | hzero
    · -- sector 5 after the wrap
      have hwrap : wrapH (jsRoundZ (((G : ℚ) - (B : ℚ)) / ((R - G : ℤ) : ℚ) * 60)) =
          jsRoundZ (((G : ℚ) - (B : ℚ)) / ((R - G : ℤ) : ℚ) * 60) + 360 := by
        unfold wrapH
        rw [if_pos hneg]
      rw [hwrap]
      have hsec := hsvToRgb_sector5
        (jsRoundZ (((G : ℚ) - (B : ℚ)) / ((R - G : ℤ) : ℚ) * 60) + 360)
        (R - G) G (by omega) (by omega) hDpos hG0
      rw [hMnD] at hsec
      simp only [hsec]
      refine ⟨by simp, by simp, ?_⟩
      rw [add_sub_shift]
      apply hue_round_mid (R - G) (B - G)
        (-(((G : ℚ) - (B : ℚ)) / ((R - G : ℤ) : ℚ) * 60)) _ hDpos hD255
      · rw [show ((R - G : ℤ) : ℚ) *
            (-(((G : ℚ) - (B : ℚ)) / ((R - G : ℤ) : ℚ) * 60)) / 60 =
            -(((R - G : ℤ) : ℚ) *
            (((G : ℚ) - (B : ℚ)) / ((R - G : ℤ) : ℚ) * 60) / 60) from by ring, hexact]
        push_cast
        ring
      · rw [show (360 - ((jsRoundZ (((G : ℚ) - (B : ℚ)) / ((R - G : ℤ) : ℚ) * 60) + 360 : ℤ) : ℚ)) -
            (-(((G : ℚ) - (B : ℚ)) / ((R - G : ℤ) : ℚ) * 60)) =
            -((jsRoundZ (((G : ℚ) - (B : ℚ)) / ((R - G : ℤ) : ℚ) * 60) : ℚ) -
              ((G : ℚ) - (B : ℚ)) / ((R - G : ℤ) : ℚ) * 60) from by push_cast; ring,
          abs_neg]
        exact hround
    · -- rounded hue is 0: sector 0 with H = 0
      have h10 : jsRoundZ (((G : ℚ) - (B : ℚ)) / ((R - G : ℤ) : ℚ) * 60) = 0 :=
        le_antisymm h1le0 hzero
      have hwrap : wrapH (jsRoundZ (((G : ℚ) - (B : ℚ)) / ((R - G : ℤ) : ℚ) * 60)) =
          jsRoundZ (((G : ℚ) - (B : ℚ)) / ((R - G : ℤ) : ℚ) * 60) := by
        unfold wrapH
        rw [if_neg (not_lt.mpr hzero)]
      rw [hwrap, h10]
      have hAsmall : |((G : ℚ) - (B : ℚ)) / ((R - G : ℤ) : ℚ) * 60| ≤ 1/2 := by
        rw [h10] at hround
        rw [show ((0 : ℤ) : ℚ) - ((G : ℚ) - (B : ℚ)) / ((R - G : ℤ) : ℚ) * 60 =
            -(((G : ℚ) - (B : ℚ)) / ((R - G : ℤ) : ℚ) * 60) from by push_cast; ring,
          abs_neg] at hround
        exact hround
      have hsec := hsvToRgb_sector0 0 (R - G) G (by omega) (by omega) hDpos hG0
      rw [hMnD] at hsec
      simp only [hsec]
      have hinner : ((R - G : ℤ) : ℚ) * ((0 : ℤ) : ℚ) / 60 = 0 := by
        push_cast
        ring
      refine ⟨by simp, ?_, ?_⟩
      · rw [hinner, jsRoundZ_zero]
        simp
      · apply int_abs_le_two
        have hval : ((G - B : ℤ) : ℚ) = ((R - G : ℤ) : ℚ) *
            (((G : ℚ) - (B : ℚ)) / ((R - G : ℤ) : ℚ) * 60) / 60 := by
          rw [hexact]
          push_cast
          ring
        rw [hval]
        exact hue_scale_small (R - G) _ hDpos hD255 hAsmall

set_option maxHeartbeats 1000000 in
/-- Round-trip bound, `max === g` branch (green strictly above red, weakly
above blue). -/
theorem roundtrip_max_g (R G B : ℤ) (hG1 : G ≤ 255) (hR0 : 0 ≤ R) (hB0 : 0 ≤ B)
    (hRG : R < G) (hBG : B ≤ G) :
    |(hsvToRgb (rgbToHsv (R : ℚ) (G : ℚ) (B : ℚ)).h
        (rgbToHsv (R : ℚ) (G : ℚ) (B : ℚ)).s
        (rgbToHsv (R : ℚ) (G : ℚ) (B : ℚ)).v).r - R| ≤ 2 ∧
    |(hsvToRgb (rgbToHsv (R : ℚ) (G : ℚ) (B : ℚ)).h
        (rgbToHsv (R : ℚ) (G : ℚ) (B : ℚ)).s
        (rgbToHsv (R : ℚ) (G : ℚ) (B : ℚ)).v).g - G| ≤ 2 ∧
    |(hsvToRgb (rgbToHsv (R : ℚ) (G : ℚ) (B : ℚ)).h
        (rgbToHsv (R : ℚ) (G : ℚ) (B : ℚ)).s
        (rgbToHsv (R : ℚ) (G : ℚ) (B : ℚ)).v).b - B| ≤ 2 := by
  have hMn0 : 0 ≤ min R B := by omega
  have hconv := rgbToHsv_case_g R G B hRG hBG hMn0
  rcases le_or_lt R B with hRleB | hBltR
  · -- min is R; exact scaled hue in [120, 180]
    have hMnR : min R B = R := min_eq_left hRleB
    rw [hMnR] at hconv
    simp only [hconv]
    have hDpos : (0 : ℤ) < G - R := by omega
    have hD255 : G - R ≤ 255 := by omega
    have hDcast : (0 : ℚ) < ((G - R : ℤ) : ℚ) := by exact_mod_cast hDpos
    have hMnD : R + (G - R) = G := by ring
    have hexact : ((G - R : ℤ) : ℚ) *
        ((((B : ℚ) - (R : ℚ)) / ((G - R : ℤ) : ℚ) + 2) * 60 - 120) / 60 =
        (B : ℚ) - (R : ℚ) := by
      rw [show ((G - R : ℤ) : ℚ) *
          ((((B : ℚ) - (R : ℚ)) / ((G - R : ℤ) : ℚ) + 2) * 60 - 120) / 60 =
          ((B : ℚ) - (R : ℚ)) / ((G - R : ℤ) : ℚ) * ((G - R : ℤ) : ℚ) from by ring]
      exact div_mul_cancel₀ _ (ne_of_gt hDcast)
    have hround := abs_jsRoundZ_sub_le
      ((((B : ℚ) - (R : ℚ)) / ((G - R : ℤ) : ℚ) + 2) * 60)
    have hA120 : (120 : ℚ) ≤ (((B : ℚ) - (R : ℚ)) / ((G - R : ℤ) : ℚ) + 2) * 60 := by
      have h1 : (0 : ℚ) ≤ (B : ℚ) - (R : ℚ) := by
        have : (R : ℚ) ≤ (B : ℚ) := by exact_mod_cast hRleB
        linarith
      have h2 : (0 : ℚ) ≤ ((B : ℚ) - (R : ℚ)) / ((G - R : ℤ) : ℚ) := by positivity
      linarith
    have hA180 : (((B : ℚ) - (R : ℚ)) / ((G - R : ℤ) : ℚ) + 2) * 60 ≤ 180 := by
      have hnum : (B : ℚ) - (R : ℚ) ≤ ((G - R : ℤ) : ℚ) := by
        push_cast
        have : (B : ℚ) ≤ (G : ℚ) := by exact_mod_cast hBG
        linarith
      have hq : ((B : ℚ) - (R : ℚ)) / ((G - R : ℤ) : ℚ) ≤ 1 :=
        (div_le_one hDcast).mpr hnum
      linarith
    have h1ge : 120 ≤ jsRoundZ ((((B : ℚ) - (R : ℚ)) / ((G - R : ℤ) : ℚ) + 2) * 60) := by
      have hlt := lt_jsRoundZ_cast ((((B : ℚ) - (R : ℚ)) / ((G - R : ℤ) : ℚ) + 2) * 60)
      have hc : (119 : ℚ) <
          (jsRoundZ ((((B : ℚ) - (R : ℚ)) / ((G - R : ℤ) : ℚ) + 2) * 60) : ℚ) := by
        linarith
      have : (119 : ℤ) < jsRoundZ ((((B : ℚ) - (R : ℚ)) / ((G - R : ℤ) : ℚ) + 2) * 60) := by
        exact_mod_cast hc
      omega
    have h1le : jsRoundZ ((((B : ℚ) - (R : ℚ)) / ((G - R : ℤ) : ℚ) + 2) * 60) ≤ 180 := by
      have hle := jsRoundZ_cast_le ((((B : ℚ) - (R : ℚ)) / ((G - R : ℤ) : ℚ) + 2) * 60)
      have hc : (jsRoundZ ((((B : ℚ) - (R : ℚ)) / ((G - R : ℤ) : ℚ) + 2) * 60) : ℚ) <
          (181 : ℚ) := by linarith
      have : jsRoundZ ((((B : ℚ) - (R : ℚ)) / ((G - R : ℤ) : ℚ) + 2) * 60) < (181 : ℤ) := by
        exact_mod_cast hc
      omega
    have hwrap : wrapH (jsRoundZ ((((B : ℚ) - (R : ℚ)) / ((G - R : ℤ) : ℚ) + 2) * 60)) =
        jsRoundZ ((((B : ℚ) - (R : ℚ)) / ((G - R : ℤ) : ℚ) + 2) * 60) := by
      unfold wrapH
      rw [if_neg (not_lt.mpr (by omega))]
    rw [hwrap]
    rcases lt_or_le
        (jsRoundZ ((((B : ℚ) - (R : ℚ)) / ((G - R : ℤ) : ℚ) + 2) * 60)) 180
      with h180 | h180
    · -- sector 2
      have hsec := hsvToRgb_sector2
        (jsRoundZ ((((B : ℚ) - (R : ℚ)) / ((G - R : ℤ) : ℚ) + 2) * 60))
        (G - R) R h1ge h180 hDpos hR0
      rw [hMnD] at hsec
      simp only [hsec]
      refine ⟨by simp, by simp, ?_⟩
      rw [add_sub_shift]
      apply hue_round_mid (G - R) (B - R)
        ((((B : ℚ) - (R : ℚ)) / ((G - R : ℤ) : ℚ) + 2) * 60 - 120) _ hDpos hD255
      · rw [hexact]
        push_cast
        ring
      · rw [show ((jsRoundZ ((((B : ℚ) - (R : ℚ)) / ((G - R : ℤ) : ℚ) + 2) * 60) : ℚ) - 120) -
            ((((B : ℚ) - (R : ℚ)) / ((G - R : ℤ) : ℚ) + 2) * 60 - 120) =
            (jsRoundZ ((((B : ℚ) - (R : ℚ)) / ((G - R : ℤ) : ℚ) + 2) * 60) : ℚ) -
            (((B : ℚ) - (R : ℚ)) / ((G - R : ℤ) : ℚ) + 2) * 60 from by ring]
        exact hround
    · -- boundary sector 3 (rounded hue exactly 180)
      have h1eq : jsRoundZ ((((B : ℚ) - (R : ℚ)) / ((G - R : ℤ) : ℚ) + 2) * 60) = 180 :=
        le_antisymm h1le h180
      rw [h1eq]
      have hsec := hsvToRgb_sector3 180 (G - R) R (by omega) (by omega) hDpos hR0
      rw [hMnD] at hsec
      simp only [hsec]
      rw [h1eq] at hround
      rw [show ((180 : ℤ) : ℚ) = (180 : ℚ) from by norm_num] at hround
      refine ⟨by simp, ?_, ?_⟩
      · have hinner : ((G - R : ℤ) : ℚ) * (240 - ((180 : ℤ) : ℚ)) / 60 =
            ((G - R : ℤ) : ℚ) := by
          push_cast
          ring
        rw [hinner, jsRoundZ_intCast]
        rw [show R + (G - R) - G = 0 from by ring]
        simp
      · apply int_abs_le_two
        have hval : ((G - B : ℤ) : ℚ) = ((G - R : ℤ) : ℚ) *
            (180 - (((B : ℚ) - (R : ℚ)) / ((G - R : ℤ) : ℚ) + 2) * 60) / 60 := by
          rw [show ((G - R : ℤ) : ℚ) *
              (180 - (((B : ℚ) - (R : ℚ)) / ((G - R : ℤ) : ℚ) + 2) * 60) / 60 =
              ((G - R : ℤ) : ℚ) -
              ((G - R : ℤ) : ℚ) *
                ((((B : ℚ) - (R : ℚ)) / ((G - R : ℤ) : ℚ) + 2) * 60 - 120) / 60
              from by ring, hexact]
          push_cast
          ring
        rw [hval]
        apply hue_scale_small (G - R) _ hDpos hD255
        exact hround
  · -- min is B; exact scaled hue in [60, 120)
    have hMnB : min R B = B := min_eq_right (le_of_lt hBltR)
    rw [hMnB] at hconv
    simp only [hconv]
    have hDpos : (0 : ℤ) < G - B := by omega
    have hD255 : G - B ≤ 255 := by omega
    have hDcast : (0 : ℚ) < ((G - B : ℤ) : ℚ) := by exact_mod_cast hDpos
    have hMnD : B + (G - B) = G := by ring
    have hexact : ((G - B : ℤ) : ℚ) *
        ((((B : ℚ) - (R : ℚ)) / ((G - B : ℤ) : ℚ) + 2) * 60 - 120) / 60 =
        (B : ℚ) - (R : ℚ) := by
      rw [show ((G - B : ℤ) : ℚ) *
          ((((B : ℚ) - (R : ℚ)) / ((G - B : ℤ) : ℚ) + 2) * 60 - 120) / 60 =
          ((B : ℚ) - (R : ℚ)) / ((G - B : ℤ) : ℚ) * ((G - B : ℤ) : ℚ) from by ring]
      exact div_mul_cancel₀ _ (ne_of_gt hDcast)
    have hround := abs_jsRoundZ_sub_le
      ((((B : ℚ) - (R : ℚ)) / ((G - B : ℤ) : ℚ) + 2) * 60)
    have hA60 : (60 : ℚ) ≤ (((B : ℚ) - (R : ℚ)) / ((G - B : ℤ) : ℚ) + 2) * 60 := by
      have hnum : -((G - B : ℤ) : ℚ) ≤ (B : ℚ) - (R : ℚ) := by
        push_cast
        have : (R : ℚ) < (G : ℚ) := by exact_mod_cast hRG
        linarith
      have hq : (-1 : ℚ) ≤ ((B : ℚ) - (R : ℚ)) / ((G - B : ℤ) : ℚ) := by
        rw [neg_le, ← neg_div]
        apply (div_le_one hDcast).mpr
        linarith
      linarith
    have hAlt : (((B : ℚ) - (R : ℚ)) / ((G - B : ℤ) : ℚ) + 2) * 60 < 120 := by
      have h1 : (B : ℚ) - (R : ℚ) < 0 := by
        have : (B : ℚ) < (R : ℚ) := by exact_mod_cast hBltR
        linarith
      have h2 : ((B : ℚ) - (R : ℚ)) / ((G - B : ℤ) : ℚ) < 0 :=
        div_neg_of_neg_of_pos h1 hDcast
      linarith
    have h1ge : 60 ≤ jsRoundZ ((((B : ℚ) - (R : ℚ)) / ((G - B : ℤ) : ℚ) + 2) * 60) := by
      have hlt := lt_jsRoundZ_cast ((((B : ℚ) - (R : ℚ)) / ((G - B : ℤ) : ℚ) + 2) * 60)
      have hc : (59 : ℚ) <
          (jsRoundZ ((((B : ℚ) - (R : ℚ)) / ((G - B : ℤ) : ℚ) + 2) * 60) : ℚ) := by
        linarith
      have : (59 : ℤ) < jsRoundZ ((((B : ℚ) - (R : ℚ)) / ((G - B : ℤ) : ℚ) + 2) * 60) := by
        exact_mod_cast hc
      omega
    have h1le : jsRoundZ ((((B : ℚ) - (R : ℚ)) / ((G - B : ℤ) : ℚ) + 2) * 60) ≤ 120 := by
      have hle := jsRoundZ_cast_le ((((B : ℚ) - (R : ℚ)) / ((G - B : ℤ) : ℚ) + 2) * 60)
      have hc : (jsRoundZ ((((B : ℚ) - (R : ℚ)) / ((G - B : ℤ) : ℚ) + 2) * 60) : ℚ) <
          (121 : ℚ) := by linarith
      have : jsRoundZ ((((B : ℚ) - (R : ℚ)) / ((G - B : ℤ) : ℚ) + 2) * 60) < (121 : ℤ) := by
        exact_mod_cast hc
      omega
    have hwrap : wrapH (jsRoundZ ((((B : ℚ) - (R : ℚ)) / ((G - B : ℤ) : ℚ) + 2) * 60)) =
        jsRoundZ ((((B : ℚ) - (R : ℚ)) / ((G - B : ℤ) : ℚ) + 2) * 60) := by
      unfold wrapH
      rw [if_neg (not_lt.mpr (by omega))]
    rw [hwrap]
    rcases lt_or_le
        (jsRoundZ ((((B : ℚ) - (R : ℚ)) / ((G - B : ℤ) : ℚ) + 2) * 60)) 120
      with h120 | h120
    · -- sector 1
      have hsec := hsvToRgb_sector1
        (jsRoundZ ((((B : ℚ) - (R : ℚ)) / ((G - B : ℤ) : ℚ) + 2) * 60))
        (G - B) B h1ge h120 hDpos hB0
      rw [hMnD] at hsec
      simp only [hsec]
      refine ⟨?_, by simp, by simp⟩
      rw [add_sub_shift]
      apply hue_round_mid (G - B) (R - B)
        (120 - (((B : ℚ) - (R : ℚ)) / ((G - B : ℤ) : ℚ) + 2) * 60) _ hDpos hD255
      · rw [show ((G - B : ℤ) : ℚ) *
            (120 - (((B : ℚ) - (R : ℚ)) / ((G - B : ℤ) : ℚ) + 2) * 60) / 60 =
            -(((G - B : ℤ) : ℚ) *
              ((((B : ℚ) - (R : ℚ)) / ((G - B : ℤ) : ℚ) + 2) * 60 - 120) / 60)
            from by ring, hexact]
        push_cast
        ring
      · rw [show (120 - (jsRoundZ ((((B : ℚ) - (R : ℚ)) / ((G - B : ℤ) : ℚ) + 2) * 60) : ℚ)) -
            (120 - (((B : ℚ) - (R : ℚ)) / ((G - B : ℤ) : ℚ) + 2) * 60) =
            -((jsRoundZ ((((B : ℚ) - (R : ℚ)) / ((G - B : ℤ) : ℚ) + 2) * 60) : ℚ) -
              (((B : ℚ) - (R : ℚ)) / ((G - B : ℤ) : ℚ) + 2) * 60) from by ring, abs_neg]
        exact hround
    · -- boundary sector 2 (rounded hue exactly 120)
      have h1eq : jsRoundZ ((((B : ℚ) - (R : ℚ)) / ((G - B : ℤ) : ℚ) + 2) * 60) = 120 :=
        le_antisymm h1le h120
      rw [h1eq]
      have hsec := hsvToRgb_sector2 120 (G - B) B (by omega) (by omega) hDpos hB0
      rw [hMnD] at hsec
      simp only [hsec]
      rw [h1eq] at hround
      rw [show ((120 : ℤ) : ℚ) = (120 : ℚ) from by norm_num] at hround
      refine ⟨?_, by simp, ?_⟩
      · apply int_abs_le_two
        have hval : ((B - R : ℤ) : ℚ) = ((G - B : ℤ) : ℚ) *
            ((((B : ℚ) - (R : ℚ)) / ((G - B : ℤ) : ℚ) + 2) * 60 - 120) / 60 := by
          rw [hexact]
          push_cast
          ring
        rw [hval]
        apply hue_scale_small (G - B) _ hDpos hD255
        rw [show (((B : ℚ) - (R : ℚ)) / ((G - B : ℤ) : ℚ) + 2) * 60 - 120 =
            -(120 - (((B : ℚ) - (R : ℚ)) / ((G - B : ℤ) : ℚ) + 2) * 60) from by ring,
          abs_neg]
        exact hround
      · have hinner : ((G - B : ℤ) : ℚ) * (((120 : ℤ) : ℚ) - 120) / 60 = 0 := by
          push_cast
          ring
        rw [hinner, jsRoundZ_zero]
        simp

set_option maxHeartbeats 1000000 in
/-- Round-trip bound, `max === b` branch (blue strictly maximal). -/
theorem roundtrip_max_b (R G B : ℤ) (hB1 : B ≤ 255) (hR0 : 0 ≤ R) (hG0 : 0 ≤ G)
    (hRB : R < B) (hGB : G < B) :
    |(hsvToRgb (rgbToHsv (R : ℚ) (G : ℚ) (B : ℚ)).h
        (rgbToHsv (R : ℚ) (G : ℚ) (B : ℚ)).s
        (rgbToHsv (R : ℚ) (G : ℚ) (B : ℚ)).v).r - R| ≤ 2 ∧
    |(hsvToRgb (rgbToHsv (R : ℚ) (G : ℚ) (B : ℚ)).h
        (rgbToHsv (R : ℚ) (G : ℚ) (B : ℚ)).s
        (rgbToHsv (R : ℚ) (G : ℚ) (B : ℚ)).v).g - G| ≤ 2 ∧
    |(hsvToRgb (rgbToHsv (R : ℚ) (G : ℚ) (B : ℚ)).h
        (rgbToHsv (R : ℚ) (G : ℚ) (B : ℚ)).s
        (rgbToHsv (R : ℚ) (G : ℚ) (B : ℚ)).v).b - B| ≤ 2 := by
  have hMn0 : 0 ≤ min R G := by omega
  have hconv := rgbToHsv_case_b R G B hRB hGB hMn0
  rcases le_or_lt G R with hGleR | hRltG
  · -- min is G; exact scaled hue in [240, 300]
    have hMnG : min R G = G := min_eq_right hGleR
    rw [hMnG] at hconv
    simp only [hconv]
    have hDpos : (0 : ℤ) < B - G := by omega
    have hD255 : B - G ≤ 255 := by omega
    have hDcast : (0 : ℚ) < ((B - G : ℤ) : ℚ) := by exact_mod_cast hDpos
    have hMnD : G + (B - G) = B := by ring
    have hexact : ((B - G : ℤ) : ℚ) *
        ((((R : ℚ) - (G : ℚ)) / ((B - G : ℤ) : ℚ) + 4) * 60 - 240) / 60 =
        (R : ℚ) - (G : ℚ) := by
      rw [show ((B - G : ℤ) : ℚ) *
          ((((R : ℚ) - (G : ℚ)) / ((B - G : ℤ) : ℚ) + 4) * 60 - 240) / 60 =
          ((R : ℚ) - (G : ℚ)) / ((B - G : ℤ) : ℚ) * ((B - G : ℤ) : ℚ) from by ring]
      exact div_mul_cancel₀ _ (ne_of_gt hDcast)
    have hround := abs_jsRoundZ_sub_le
      ((((R : ℚ) - (G : ℚ)) / ((B - G : ℤ) : ℚ) + 4) * 60)
    have hA240 : (240 : ℚ) ≤ (((R : ℚ) - (G : ℚ)) / ((B - G : ℤ) : ℚ) + 4) * 60 := by
      have h1 : (0 : ℚ) ≤ (R : ℚ) - (G : ℚ) := by
        have : (G : ℚ) ≤ (R : ℚ) := by exact_mod_cast hGleR
        linarith
      have h2 : (0 : ℚ) ≤ ((R : ℚ) - (G : ℚ)) / ((B - G : ℤ) : ℚ) := by positivity
      linarith
    have hA300 : (((R : ℚ) - (G : ℚ)) / ((B - G : ℤ) : ℚ) + 4) * 60 ≤ 300 := by
      have hnum : (R : ℚ) - (G : ℚ) ≤ ((B - G : ℤ) : ℚ) := by
        push_cast
        have : (R : ℚ) < (B : ℚ) := by exact_mod_cast hRB
        linarith
      have hq : ((R : ℚ) - (G : ℚ)) / ((B - G : ℤ) : ℚ) ≤ 1 :=
        (div_le_one hDcast).mpr hnum
      linarith
    have h1ge : 240 ≤ jsRoundZ ((((R : ℚ) - (G : ℚ)) / ((B - G : ℤ) : ℚ) + 4) * 60) := by
      have hlt := lt_jsRoundZ_cast ((((R : ℚ) - (G : ℚ)) / ((B - G : ℤ) : ℚ) + 4) * 60)
      have hc : (239 : ℚ) <
          (jsRoundZ ((((R : ℚ) - (G : ℚ)) / ((B - G : ℤ) : ℚ) + 4) * 60) : ℚ) := by
        linarith
      have : (239 : ℤ) < jsRoundZ ((((R : ℚ) - (G : ℚ)) / ((B - G : ℤ) : ℚ) + 4) * 60) := by
        exact_mod_cast hc
      omega
    have h1le : jsRoundZ ((((R : ℚ) - (G : ℚ)) / ((B - G : ℤ) : ℚ) + 4) * 60) ≤ 300 := by
      have hle := jsRoundZ_cast_le ((((R : ℚ) - (G : ℚ)) / ((B - G : ℤ) : ℚ) + 4) * 60)
      have hc : (jsRoundZ ((((R : ℚ) - (G : ℚ)) / ((B - G : ℤ) : ℚ) + 4) * 60) : ℚ) <
          (301 : ℚ) := by linarith
      have : jsRoundZ ((((R : ℚ) - (G : ℚ)) / ((B - G : ℤ) : ℚ) + 4) * 60) < (301 : ℤ) := by
        exact_mod_cast hc
      omega
    have hwrap : wrapH (jsRoundZ ((((R : ℚ) - (G : ℚ)) / ((B - G : ℤ) : ℚ) + 4) * 60)) =
        jsRoundZ ((((R : ℚ) - (G : ℚ)) / ((B - G : ℤ) : ℚ) + 4) * 60) := by
      unfold wrapH
      rw [if_neg (not_lt.mpr (by omega))]
    rw [hwrap]
    rcases lt_or_le
        (jsRoundZ ((((R : ℚ) - (G : ℚ)) / ((B - G : ℤ) : ℚ) + 4) * 60)) 300
      with h300 | h300
    · -- sector 4
      have hsec := hsvToRgb_sector4
        (jsRoundZ ((((R : ℚ) - (G : ℚ)) / ((B - G : ℤ) : ℚ) + 4) * 60))
        (B - G) G h1ge h300 hDpos hG0
      rw [hMnD] at hsec
      simp only [hsec]
      refine ⟨?_, by simp, by simp⟩
      rw [add_sub_shift]
      apply hue_round_mid (B - G) (R - G)
        ((((R : ℚ) - (G : ℚ)) / ((B - G : ℤ) : ℚ) + 4) * 60 - 240) _ hDpos hD255
      · rw [hexact]
        push_cast
        ring
      · rw [show ((jsRoundZ ((((R : ℚ) - (G : ℚ)) / ((B - G : ℤ) : ℚ) + 4) * 60) : ℚ) - 240) -
            ((((R : ℚ) - (G : ℚ)) / ((B - G : ℤ) : ℚ) + 4) * 60 - 240) =
            (jsRoundZ ((((R : ℚ) - (G : ℚ)) / ((B - G : ℤ) : ℚ) + 4) * 60) : ℚ) -
            (((R : ℚ) - (G : ℚ)) / ((B - G : ℤ) : ℚ) + 4) * 60 from by ring]
        exact hround
    · -- boundary sector 5 (rounded hue exactly 300)
      have h1eq : jsRoundZ ((((R : ℚ) - (G : ℚ)) / ((B - G : ℤ) : ℚ) + 4) * 60) = 300 :=
        le_antisymm h1le h300
      rw [h1eq]
      have hsec := hsvToRgb_sector5 300 (B - G) G (by omega) (by omega) hDpos hG0
      rw [hMnD] at hsec
      simp only [hsec]
      rw [h1eq] at hround
      rw [show ((300 : ℤ) : ℚ) = (300 : ℚ) from by norm_num] at hround
      refine ⟨?_, by simp, ?_⟩
      · apply int_abs_le_two
        have hval : ((B - R : ℤ) : ℚ) = ((B - G : ℤ) : ℚ) *
            (300 - (((R : ℚ) - (G : ℚ)) / ((B - G : ℤ) : ℚ) + 4) * 60) / 60 := by
          rw [show ((B - G : ℤ) : ℚ) *
              (300 - (((R : ℚ) - (G : ℚ)) / ((B - G : ℤ) : ℚ) + 4) * 60) / 60 =
              ((B - G : ℤ) : ℚ) -
              ((B - G : ℤ) : ℚ) *
                ((((R : ℚ) - (G : ℚ)) / ((B - G : ℤ) : ℚ) + 4) * 60 - 240) / 60
              from by ring, hexact]
          push_cast
          ring
        rw [hval]
        apply hue_scale_small (B - G) _ hDpos hD255
        exact hround
      · have hinner : ((B - G : ℤ) : ℚ) * (360 - ((300 : ℤ) : ℚ)) / 60 =
            ((B - G : ℤ) : ℚ) := by
          push_cast
          ring
        rw [hinner, jsRoundZ_intCast]
        rw [show G + (B - G) - B = 0 from by ring]
        simp
  · -- min is R; exact scaled hue in [180, 240)
    have hMnR : min R G = R := min_eq_left (le_of_lt hRltG)
    rw [hMnR] at hconv
    simp only [hconv]
    have hDpos : (0 : ℤ) < B - R := by omega
    have hD255 : B - R ≤ 255 := by omega
    have hDcast : (0 : ℚ) < ((B - R : ℤ) : ℚ) := by exact_mod_cast hDpos
    have hMnD : R + (B - R) = B := by ring
    have hexact : ((B - R : ℤ) : ℚ) *
        ((((R : ℚ) - (G : ℚ)) / ((B - R : ℤ) : ℚ) + 4) * 60 - 240) / 60 =
        (R : ℚ) - (G : ℚ) := by
      rw [show ((B - R : ℤ) : ℚ) *
          ((((R : ℚ) - (G : ℚ)) / ((B - R : ℤ) : ℚ) + 4) * 60 - 240) / 60 =
          ((R : ℚ) - (G : ℚ)) / ((B - R : ℤ) : ℚ) * ((B - R : ℤ) : ℚ) from by ring]
      exact div_mul_cancel₀ _ (ne_of_gt hDcast)
    have hround := abs_jsRoundZ_sub_le
      ((((R : ℚ) - (G : ℚ)) / ((B - R : ℤ) : ℚ) + 4) * 60)
    have hA180 : (180 : ℚ) ≤ (((R : ℚ) - (G : ℚ)) / ((B - R : ℤ) : ℚ) + 4) * 60 := by
      have hnum : -((B - R : ℤ) : ℚ) ≤ (R : ℚ) - (G : ℚ) := by
        push_cast
        have : (G : ℚ) < (B : ℚ) := by exact_mod_cast hGB
        linarith
      have hq : (-1 : ℚ) ≤ ((R : ℚ) - (G : ℚ)) / ((B - R : ℤ) : ℚ) := by
        rw [neg_le, ← neg_div]
        apply (div_le_one hDcast).mpr
        linarith
      linarith
    have hAlt : (((R : ℚ) - (G : ℚ)) / ((B - R : ℤ) : ℚ) + 4) * 60 < 240 := by
      have h1 : (R : ℚ) - (G : ℚ) < 0 := by
        have : (R : ℚ) < (G : ℚ) := by exact_mod_cast hRltG
        linarith
      have h2 : ((R : ℚ) - (G : ℚ)) / ((B - R : ℤ) : ℚ) < 0 :=
        div_neg_of_neg_of_pos h1 hDcast
      linarith
    have h1ge : 180 ≤ jsRoundZ ((((R : ℚ) - (G : ℚ)) / ((B - R : ℤ) : ℚ) + 4) * 60) := by
      have hlt := lt_jsRoundZ_cast ((((R : ℚ) - (G : ℚ)) / ((B - R : ℤ) : ℚ) + 4) * 60)
      have hc : (179 : ℚ) <
          (jsRoundZ ((((R : ℚ) - (G : ℚ)) / ((B - R : ℤ) : ℚ) + 4) * 60) : ℚ) := by
        linarith
      have : (179 : ℤ) < jsRoundZ ((((R : ℚ) - (G : ℚ)) / ((B - R : ℤ) : ℚ) + 4) * 60) := by
        exact_mod_cast hc
      omega
    have h1le : jsRoundZ ((((R : ℚ) - (G : ℚ)) / ((B - R : ℤ) : ℚ) + 4) * 60) ≤ 240 := by
      have hle := jsRoundZ_cast_le ((((R : ℚ) - (G : ℚ)) / ((B - R : ℤ) : ℚ) + 4) * 60)
      have hc : (jsRoundZ ((((R : ℚ) - (G : ℚ)) / ((B - R : ℤ) : ℚ) + 4) * 60) : ℚ) <
          (241 : ℚ) := by linarith
      have : jsRoundZ ((((R : ℚ) - (G : ℚ)) / ((B - R : ℤ) : ℚ) + 4) * 60) < (241 : ℤ) := by
        exact_mod_cast hc
      omega
    have hwrap : wrapH (jsRoundZ ((((R : ℚ) - (G : ℚ)) / ((B - R : ℤ) : ℚ) + 4) * 60)) =
        jsRoundZ ((((R : ℚ) - (G : ℚ)) / ((B - R : ℤ) : ℚ) + 4) * 60) := by
      unfold wrapH
      rw [if_neg (not_lt.mpr (by omega))]
    rw [hwrap]
    rcases lt_or_le
        (jsRoundZ ((((R : ℚ) - (G : ℚ)) / ((B - R : ℤ) : ℚ) + 4) * 60)) 240
      with h240 | h240
    · -- sector 3
      have hsec := hsvToRgb_sector3
        (jsRoundZ ((((R : ℚ) - (G : ℚ)) / ((B - R : ℤ) : ℚ) + 4) * 60))
        (B - R) R h1ge h240 hDpos hR0
      rw [hMnD] at hsec
      simp only [hsec]
      refine ⟨by simp, ?_, by simp⟩
      rw [add_sub_shift]
      apply hue_round_mid (B - R) (G - R)
        (240 - (((R : ℚ) - (G : ℚ)) / ((B - R : ℤ) : ℚ) + 4) * 60) _ hDpos hD255
      · rw [show ((B - R : ℤ) : ℚ) *
            (240 - (((R : ℚ) - (G : ℚ)) / ((B - R : ℤ) : ℚ) + 4) * 60) / 60 =
            -(((B - R : ℤ) : ℚ) *
              ((((R : ℚ) - (G : ℚ)) / ((B - R : ℤ) : ℚ) + 4) * 60 - 240) / 60)
            from by ring, hexact]
        push_cast
        ring
      · rw [show (240 - (jsRoundZ ((((R : ℚ) - (G : ℚ)) / ((B - R : ℤ) : ℚ) + 4) * 60) : ℚ)) -
            (240 - (((R : ℚ) - (G : ℚ)) / ((B - R : ℤ) : ℚ) + 4) * 60) =
            -((jsRoundZ ((((R : ℚ) - (G : ℚ)) / ((B - R : ℤ) : ℚ) + 4) * 60) : ℚ) -
              (((R : ℚ) - (G : ℚ)) / ((B - R : ℤ) : ℚ) + 4) * 60) from by ring, abs_neg]
        exact hround
    · -- boundary sector 4 (rounded hue exactly 240)
      have h1eq : jsRoundZ ((((R : ℚ) - (G : ℚ)) / ((B - R : ℤ) : ℚ) + 4) * 60) = 240 :=
        le_antisymm h1le h240
      rw [h1eq]
      have hsec := hsvToRgb_sector4 240 (B - R) R (by omega) (by omega) hDpos hR0
      rw [hMnD] at hsec
      simp only [hsec]
      rw [h1eq] at hround
      rw [show ((240 : ℤ) : ℚ) = (240 : ℚ) from by norm_num] at hround
      refine ⟨?_, ?_, by simp⟩
      · have hinner : ((B - R : ℤ) : ℚ) * (((240 : ℤ) : ℚ) - 240) / 60 = 0 := by
          push_cast
          ring
        rw [hinner, jsRoundZ_zero]
        simp
      · apply int_abs_le_two
        have hval : ((R - G : ℤ) : ℚ) = ((B - R : ℤ) : ℚ) *
            ((((R : ℚ) - (G : ℚ)) / ((B - R : ℤ) : ℚ) + 4) * 60 - 240) / 60 := by
          rw [hexact]
          push_cast
          ring
        rw [hval]
        apply hue_scale_small (B - R) _ hDpos hD255
        rw [show (((R : ℚ) - (G : ℚ)) / ((B - R : ℤ) : ℚ) + 4) * 60 - 240 =
            -(240 - (((R : ℚ) - (G : ℚ)) / ((B - R : ℤ) : ℚ) + 4) * 60) from by ring,
          abs_neg]
        exact hround

/-- C1 assembly: dispatch on the maximal channel, exactly as `rgbToHsv`'s
branch order does. -/
theorem roundtrip_within_two_aux (R G B : ℤ)
    (hR0 : 0 ≤ R) (hR1 : R ≤ 255) (hG0 : 0 ≤ G) (hG1 : G ≤ 255)
    (hB0 : 0 ≤ B) (hB1 : B ≤ 255) :
    |(hsvToRgb (rgbToHsv (R : ℚ) (G : ℚ) (B : ℚ)).h
        (rgbToHsv (R : ℚ) (G : ℚ) (B : ℚ)).s
        (rgbToHsv (R : ℚ) (G : ℚ) (B : ℚ)).v).r - R| ≤ 2 ∧
    |(hsvToRgb (rgbToHsv (R : ℚ) (G : ℚ) (B : ℚ)).h
        (rgbToHsv (R : ℚ) (G : ℚ) (B : ℚ)).s
        (rgbToHsv (R : ℚ) (G : ℚ) (B : ℚ)).v).g - G| ≤ 2 ∧
    |(hsvToRgb (rgbToHsv (R : ℚ) (G : ℚ) (B : ℚ)).h
        (rgbToHsv (R : ℚ) (G : ℚ) (B : ℚ)).s
        (rgbToHsv (R : ℚ) (G : ℚ) (B : ℚ)).v).b - B| ≤ 2 := by
  by_cases hgray : R = G ∧ G = B
  · obtain ⟨rfl, rfl⟩ := hgray
    rw [rgbToHsv_gray]
    simp only [hsvToRgb_s0]
    rw [show (R : ℚ) / 255 * 255 = ((R : ℤ) : ℚ) by field_simp, jsRoundZ_intCast]
    norm_num
  · rcases le_or_lt G R with hGR | hGR
    · rcases le_or_lt B R with hBR | hBR
      · exact roundtrip_max_r R G B hR1 hG0 hB0 hGR hBR (by omega)
      · exact roundtrip_max_b R G B hB1 hR0 hG0 hBR (by omega)
    · rcases le_or_lt B G with hBG | hBG
      · exact roundtrip_max_g R G B hG1 hR0 hB0 hGR hBG
      · exact roundtrip_max_b R G B hB1 hR0 hG0 (by omega) hBG

/-! ## Claim theorems -/

/-- **C1 (amended).** For every integer RGB triple with channels in
`[0, 255]`, composing `rgbToHsv` and then `hsvToRgb` yields a triple whose
channels each differ from the original by at most **2** (not 1: rounding the
hue to a whole degree can displace a channel by up to `255/120`, and the
final channel rounding adds up to another half). -/
theorem roundtrip_hsv_within_two (R G B : ℤ)
    (hR0 : 0 ≤ R) (hR1 : R ≤ 255) (hG0 : 0 ≤ G) (hG1 : G ≤ 255)
    (hB0 : 0 ≤ B) (hB1 : B ≤ 255) :
    |(hsvToRgb (rgbToHsv (R : ℚ) (G : ℚ) (B : ℚ)).h
        (rgbToHsv (R : ℚ) (G : ℚ) (B : ℚ)).s
        (rgbToHsv (R : ℚ) (G : ℚ) (B : ℚ)).v).r - R| ≤ 2 ∧
    |(hsvToRgb (rgbToHsv (R : ℚ) (G : ℚ) (B : ℚ)).h
        (rgbToHsv (R : ℚ) (G : ℚ) (B : ℚ)).s
        (rgbToHsv (R : ℚ) (G : ℚ) (B : ℚ)).v).g - G| ≤ 2 ∧
    |(hsvToRgb (rgbToHsv (R : ℚ) (G : ℚ) (B : ℚ)).h
        (rgbToHsv (R : ℚ) (G : ℚ) (B : ℚ)).s
        (rgbToHsv (R : ℚ) (G : ℚ) (B : ℚ)).v).b - B| ≤ 2 :=
  roundtrip_within_two_aux R G B hR0 hR1 hG0 hG1 hB0 hB1

/-- **C1 counterexample.** The round trip is *not* within `±1`: on
`(255, 2, 0)` the hue `60 * (2/255) ≈ 0.47` rounds to `0`, and the green
channel comes back as `0`, two away from the original `2`. -/
theorem roundtrip_hsv_not_within_one :
    hsvToRgb (rgbToHsv (255 : ℚ) (2 : ℚ) (0 : ℚ)).h
      (rgbToHsv (255 : ℚ) (2 : ℚ) (0 : ℚ)).s
      (rgbToHsv (255 : ℚ) (2 : ℚ) (0 : ℚ)).v = ⟨255, 0, 0⟩ ∧
    ¬(|(hsvToRgb (rgbToHsv (255 : ℚ) (2 : ℚ) (0 : ℚ)).h
        (rgbToHsv (255 : ℚ) (2 : ℚ) (0 : ℚ)).s
        (rgbToHsv (255 : ℚ) (2 : ℚ) (0 : ℚ)).v).g - 2| ≤ 1) := by
  have h1 : rgbToHsv (255 : ℚ) (2 : ℚ) (0 : ℚ) = ⟨0, 1, 1⟩ := by
    unfold rgbToHsv jsRoundZ jsRem jsTrunc
    norm_num [max_def, min_def]
  have h2 : hsvToRgb (0 : ℚ) (1 : ℚ) (1 : ℚ) = ⟨255, 0, 0⟩ := by
    unfold hsvToRgb jsRoundZ jsRem jsTrunc
    norm_num
  constructor
  · simp only [h1]
    exact h2
  · simp only [h1, h2]
    decide

/-- **C1 witness.** The amended bound applied at the counterexample's input. -/
theorem roundtrip_hsv_within_two_witness :
    |(hsvToRgb (rgbToHsv (255 : ℚ) (2 : ℚ) (0 : ℚ)).h
        (rgbToHsv (255 : ℚ) (2 : ℚ) (0 : ℚ)).s
        (rgbToHsv (255 : ℚ) (2 : ℚ) (0 : ℚ)).v).r - 255| ≤ 2 ∧
    |(hsvToRgb (rgbToHsv (255 : ℚ) (2 : ℚ) (0 : ℚ)).h
        (rgbToHsv (255 : ℚ) (2 : ℚ) (0 : ℚ)).s
        (rgbToHsv (255 : ℚ) (2 : ℚ) (0 : ℚ)).v).g - 2| ≤ 2 ∧
    |(hsvToRgb (rgbToHsv (255 : ℚ) (2 : ℚ) (0 : ℚ)).h
        (rgbToHsv (255 : ℚ) (2 : ℚ) (0 : ℚ)).s
        (rgbToHsv (255 : ℚ) (2 : ℚ) (0 : ℚ)).v).b - 0| ≤ 2 :=
  roundtrip_hsv_within_two 255 2 0 (by norm_num) (by norm_num) (by norm_num)
    (by norm_num) (by norm_num) (by norm_num)

/-- **C7.** Gray inputs (all channels equal) have hue 0 and saturation 0 in
both `rgbToHsv` and `rgbToHsl`; in particular `rgbToHsv 128 128 128` is
`{h := 0, s := 0, v := 128/255}` and `rgbToHsl 128 128 128` is
`{h := 0, s := 0, l := 50}`. -/
theorem gray_hue_saturation_zero :
    (∀ c : ℚ, (rgbToHsv c c c).h = 0 ∧ (rgbToHsv c c c).s = 0 ∧
      (rgbToHsl c c c).h = 0 ∧ (rgbToHsl c c c).s = 0) ∧
    rgbToHsv 128 128 128 = ⟨0, 0, 128/255⟩ ∧
    rgbToHsl 128 128 128 = ⟨0, 0, 50⟩ := by
  refine ⟨fun c => ?_, ?_, ?_⟩
  · rw [rgbToHsv_gray, rgbToHsl_gray]
    norm_num
  · exact rgbToHsv_gray 128
  · rw [rgbToHsl_gray]
    unfold jsRoundZ
    norm_num

/-- **C4 (amended).** Every rounding step uses JavaScript `Math.round`, which
rounds half-way cases *toward `+∞`* (`⌊q + 1/2⌋`), not away from zero.  The
two coincide on nonnegative inputs — which covers the `rgbToHsl` and
`hsvToRgb` roundings — but at a negative exact half they differ: `-1/2`
rounds to `0`, not `-1`.  Consequently `rgbToHsv 120 0 1`, whose unrounded
scaled hue is exactly `-1/2`, has hue `0` (no wrap to `359`). -/
theorem rounding_is_half_up :
    (∀ q : ℚ, 0 ≤ q → jsRoundZ q = specAwayFromZeroRound q) ∧
    jsRoundZ (-(1/2)) = 0 ∧ specAwayFromZeroRound (-(1/2)) = -1 ∧
    (rgbToHsv (120 : ℚ) (0 : ℚ) (1 : ℚ)).h = 0 := by
  refine ⟨fun q hq => ?_, ?_, ?_, ?_⟩
  · unfold specAwayFromZeroRound
    rw [if_neg (not_lt.mpr hq)]
    rfl
  · unfold jsRoundZ
    norm_num
  · unfold specAwayFromZeroRound
    norm_num
  · unfold rgbToHsv jsRoundZ jsRem jsTrunc
    norm_num [max_def, min_def]
    rw [show ⌈(-(1/720) : ℚ)⌉ = 0 from by
      rw [Int.ceil_eq_zero_iff, Set.mem_Ioc]
      constructor <;> norm_num]
    norm_num

/-- **C4 counterexample.** As stated the claim demands hue
`-1/2 → -1 → +360 = 359` on `(120, 0, 1)`; the code yields `0`. -/
theorem rounding_not_away_from_zero :
    (rgbToHsv (120 : ℚ) (0 : ℚ) (1 : ℚ)).h = 0 ∧ (0 : ℚ) ≠ 359 := by
  constructor
  · unfold rgbToHsv jsRoundZ jsRem jsTrunc
    norm_num [max_def, min_def]
    rw [show ⌈(-(1/720) : ℚ)⌉ = 0 from by
      rw [Int.ceil_eq_zero_iff, Set.mem_Ioc]
      constructor <;> norm_num]
    norm_num
  · norm_num

/-- **C4 witness.** The half-up/away-from-zero agreement applied at `3/2`,
together with the concrete hue evaluation. -/
theorem rounding_is_half_up_witness :
    jsRoundZ (3/2) = specAwayFromZeroRound (3/2) ∧
    (rgbToHsv (120 : ℚ) (0 : ℚ) (1 : ℚ)).h = 0 :=
  ⟨rounding_is_half_up.1 (3/2) (by norm_num), rounding_is_half_up.2.2.2⟩

set_option maxRecDepth 10000 in
/-- Each byte in `[0, 255]` is rendered by `toHex` as exactly the two hex
digits of its nibbles (the `'0'`-prepend-then-`slice(-2)` zero-padding). -/
theorem toHex_eq : ∀ c : ℕ, c ≤ 255 →
    toHex c = ⟨[Nat.digitChar (c / 16), Nat.digitChar (c % 16)]⟩ := by decide

theorem digitChar_lower_hex : ∀ n : ℕ, n < 16 →
    isLowerHexDigit (Nat.digitChar n) = true := by decide

/-- **C8.** For integer channels in `[0, 255]`, `rgbToHex` produces `'#'`
followed by exactly six lowercase hexadecimal digits, each channel zero-padded
to two digits; in particular `rgbToHex 255 0 0 = "#ff0000"` and
`rgbToHex 0 0 0 = "#000000"`. -/
theorem rgbToHex_format (r g b : ℕ) (hr : r ≤ 255) (hg : g ≤ 255)
    (hb : b ≤ 255) :
    (rgbToHex r g b).data =
      ['#', Nat.digitChar (r / 16), Nat.digitChar (r % 16),
        Nat.digitChar (g / 16), Nat.digitChar (g % 16),
        Nat.digitChar (b / 16), Nat.digitChar (b % 16)] ∧
    (∀ ch ∈ (rgbToHex r g b).data.tail, isLowerHexDigit ch = true) ∧
    rgbToHex 255 0 0 = "#ff0000" ∧ rgbToHex 0 0 0 = "#000000" := by
  have hdata : (rgbToHex r g b).data =
      ['#', Nat.digitChar (r / 16), Nat.digitChar (r % 16),
        Nat.digitChar (g / 16), Nat.digitChar (g % 16),
        Nat.digitChar (b / 16), Nat.digitChar (b % 16)] := by
    unfold rgbToHex
    rw [toHex_eq r hr, toHex_eq g hg, toHex_eq b hb]
    rw [String.data_append, String.data_append, String.data_append]
    rfl
  refine ⟨hdata, ?_, by decide, by decide⟩
  intro ch hch
  rw [hdata] at hch
  simp only [List.tail_cons, List.mem_cons, List.not_mem_nil, or_false] at hch
  rcases hch with rfl | rfl | rfl | rfl | rfl | rfl <;>
    exact digitChar_lower_hex _ (by omega)

/-- **C8 witness.** The format statement applied at `(255, 100, 50)`. -/
theorem rgbToHex_format_witness :
    (rgbToHex 255 100 50).data =
      ['#', Nat.digitChar (255 / 16), Nat.digitChar (255 % 16),
        Nat.digitChar (100 / 16), Nat.digitChar (100 % 16),
        Nat.digitChar (50 / 16), Nat.digitChar (50 % 16)] ∧
    (∀ ch ∈ (rgbToHex 255 100 50).data.tail, isLowerHexDigit ch = true) ∧
    rgbToHex 255 0 0 = "#ff0000" ∧ rgbToHex 0 0 0 = "#000000" :=
  rgbToHex_format 255 100 50 (by norm_num) (by norm_num) (by norm_num)

/-- **C10.** For `h ∈ [0, 360)`, `s ∈ [0, 1]`, `v ∈ [0, 1]`, every channel
returned by `hsvToRgb` is an integer (the channels of the `RGBColor` record
are `Math.round` results, modelled as `ℤ`) lying in `[0, 255]`, so the output
is always a valid input to `rgbToHex`, `rgbToHsl` and `rgbToHsv`. -/
theorem hsvToRgb_channels_in_range (h s v : ℚ)
    (hh0 : 0 ≤ h) (hh1 : h < 360) (hs0 : 0 ≤ s) (hs1 : s ≤ 1)
    (hv0 : 0 ≤ v) (hv1 : v ≤ 1) :
    (0 ≤ (hsvToRgb h s v).r ∧ (hsvToRgb h s v).r ≤ 255) ∧
    (0 ≤ (hsvToRgb h s v).g ∧ (hsvToRgb h s v).g ≤ 255) ∧
    (0 ≤ (hsvToRgb h s v).b ∧ (hsvToRgb h s v).b ≤ 255) := by
  have hc0 : 0 ≤ v * s := mul_nonneg hv0 hs0
  have hcv : v * s ≤ v := mul_le_of_le_one_right hv0 hs1
  have hhq : (0 : ℚ) ≤ h / 60 := by positivity
  have hrem0 : 0 ≤ jsRem (h / 60) 2 := jsRem_two_nonneg hhq
  have hrem2 : jsRem (h / 60) 2 < 2 := jsRem_two_lt hhq
  have hbr : 0 ≤ 1 - |jsRem (h / 60) 2 - 1| := by
    have : |jsRem (h / 60) 2 - 1| ≤ 1 := by
      rw [abs_le]
      constructor <;> linarith
    linarith
  have hbr1 : 1 - |jsRem (h / 60) 2 - 1| ≤ 1 := by
    have := abs_nonneg (jsRem (h / 60) 2 - 1)
    linarith
  have hx0 : 0 ≤ v * s * (1 - |jsRem (h / 60) 2 - 1|) := mul_nonneg hc0 hbr
  have hxc : v * s * (1 - |jsRem (h / 60) 2 - 1|) ≤ v * s :=
    mul_le_of_le_one_right hc0 hbr1
  have key : ∀ val : ℚ, 0 ≤ val → val ≤ v * s →
      0 ≤ jsRoundZ ((val + (v - v * s)) * 255) ∧
      jsRoundZ ((val + (v - v * s)) * 255) ≤ 255 := by
    intro val h0 h1
    have hsum0 : 0 ≤ val + (v - v * s) := by linarith
    have hsum1 : val + (v - v * s) ≤ 1 := by linarith
    have hlo : (0 : ℚ) ≤ (val + (v - v * s)) * 255 := by nlinarith
    have hhi : (val + (v - v * s)) * 255 ≤ 255 := by nlinarith
    refine ⟨jsRoundZ_nonneg hlo, ?_⟩
    have hle := jsRoundZ_cast_le ((val + (v - v * s)) * 255)
    have hcst : (jsRoundZ ((val + (v - v * s)) * 255) : ℚ) < (256 : ℚ) := by
      linarith
    have : jsRoundZ ((val + (v - v * s)) * 255) < (256 : ℤ) := by
      exact_mod_cast hcst
    omega
  simp only [hsvToRgb]
  split_ifs
  · exact ⟨key _ hc0 (le_refl _), key _ hx0 hxc, key 0 (le_refl 0) hc0⟩
  · exact ⟨key _ hx0 hxc, key _ hc0 (le_refl _), key 0 (le_refl 0) hc0⟩
  · exact ⟨key 0 (le_refl 0) hc0, key _ hc0 (le_refl _), key _ hx0 hxc⟩
  · exact ⟨key 0 (le_refl 0) hc0, key _ hx0 hxc, key _ hc0 (le_refl _)⟩
  · exact ⟨key _ hx0 hxc, key 0 (le_refl 0) hc0, key _ hc0 (le_refl _)⟩
  · exact ⟨key _ hc0 (le_refl _), key 0 (le_refl 0) hc0, key _ hx0 hxc⟩

/-- **C10 witness.** The range statement applied at `(120, 1/2, 1)`. -/
theorem hsvToRgb_channels_in_range_witness :
    (0 ≤ (hsvToRgb 120 (1/2) 1).r ∧ (hsvToRgb 120 (1/2) 1).r ≤ 255) ∧
    (0 ≤ (hsvToRgb 120 (1/2) 1).g ∧ (hsvToRgb 120 (1/2) 1).g ≤ 255) ∧
    (0 ≤ (hsvToRgb 120 (1/2) 1).b ∧ (hsvToRgb 120 (1/2) 1).b ≤ 255) :=
  hsvToRgb_channels_in_range 120 (1/2) 1 (by norm_num) (by norm_num)
    (by norm_num) (by norm_num) (by norm_num) (by norm_num)

/-- The `forEach` assignment loop of `triggerOnChange` builds exactly the
lookup "requested format ↦ its `formatResults` entry". -/
theorem trigger_lookup (c : HSVAColor) (formats : List ColorFormat)
    (acc : ColorFormat → Option FormatValue) (f : ColorFormat) :
    (formats.foldl
      (fun acc g => fun key =>
        if key = g then some (formatResults c g) else acc key)
      acc) f = if f ∈ formats then some (formatResults c f) else acc f := by
  induction formats generalizing acc with
  | nil => simp
  | cons x xs ih =>
      rw [List.foldl_cons, ih]
      by_cases hfx : f = x
      · subst hfx
        by_cases hx : f ∈ xs <;> simp [hx]
      · by_cases hx : f ∈ xs <;> simp [hx, hfx, List.mem_cons]

/-- **C6.** The value passed to `onChange` is shaped by the requested formats:
a single requested format is passed standalone, and two or more requested
formats produce a mapping keyed by format name that contains exactly the
requested formats (present iff requested, with the format's value). -/
theorem onchange_shape (c : HSVAColor) (f : ColorFormat)
    (formats : List ColorFormat) :
    triggerOnChange c [f] = ZColorResult.single (formatResults c f) ∧
    (2 ≤ formats.length →
      ∃ m, triggerOnChange c formats = ZColorResult.multiple m ∧
        ∀ g, m g = if g ∈ formats then some (formatResults c g) else none) := by
  constructor
  · rfl
  · intro hlen
    rcases formats with _ | ⟨f1, rest1⟩
    · simp at hlen
    · rcases rest1 with _ | ⟨f2, rest⟩
      · simp at hlen
      · exact ⟨_, rfl,
          fun g => trigger_lookup c (f1 :: f2 :: rest) (fun _ => none) g⟩

/-- **C6 witness.** The shaping applied to a concrete color, a single format
`hex`, and the pair `[hex, rgba]`. -/
theorem onchange_shape_witness :
    triggerOnChange ⟨0, 0, 0, 1⟩ [ColorFormat.hex] =
      ZColorResult.single (formatResults ⟨0, 0, 0, 1⟩ ColorFormat.hex) ∧
    ∃ m, triggerOnChange ⟨0, 0, 0, 1⟩ [ColorFormat.hex, ColorFormat.rgba] =
        ZColorResult.multiple m ∧
      ∀ g, m g = if g ∈ [ColorFormat.hex, ColorFormat.rgba]
        then some (formatResults ⟨0, 0, 0, 1⟩ g) else none :=
  ⟨(onchange_shape ⟨0, 0, 0, 1⟩ ColorFormat.hex
      [ColorFormat.hex, ColorFormat.rgba]).1,
    (onchange_shape ⟨0, 0, 0, 1⟩ ColorFormat.hex
      [ColorFormat.hex, ColorFormat.rgba]).2 (by decide)⟩

/-- **C5.** The initial color `{r: 255, g: 100, b: 50, a: 0.8}` converts to
approximately `{h: 16, s: 0.804, v: 1}` (the exact values are `h = 15`,
`s = 41/51 ≈ 0.8039`, `v = 1`; alpha is carried as `0.8`), and the change
event emitted for `formats = [hex, rgba]` is the map with
`rgba = {r, g, b, a: 0.8}` and `hex = rgbToHex r g b`, where each channel is
within `±1` of `(255, 100, 50)` (the exact event is
`{hex: "#ff6532", rgba: {255, 101, 50, 0.8}}`). -/
theorem initial_color_conversion_event :
    (|(rgbToHsv 255 100 50).h - 16| ≤ 1 ∧
      |(rgbToHsv 255 100 50).s - 804/1000| ≤ 1/1000 ∧
      (rgbToHsv 255 100 50).v = 1) ∧
    ∃ m, triggerOnChange
        ⟨(rgbToHsv 255 100 50).h, (rgbToHsv 255 100 50).s,
          (rgbToHsv 255 100 50).v, 4/5⟩
        [ColorFormat.hex, ColorFormat.rgba] = ZColorResult.multiple m ∧
      ∃ r g b : ℤ,
        m ColorFormat.rgba = some (FormatValue.rgbaV r g b (4/5)) ∧
        m ColorFormat.hex =
          some (FormatValue.hexV (rgbToHex r.toNat g.toNat b.toNat)) ∧
        |r - 255| ≤ 1 ∧ |g - 100| ≤ 1 ∧ |b - 50| ≤ 1 := by
  have hconv : rgbToHsv (255 : ℚ) (100 : ℚ) (50 : ℚ) = ⟨15, 41/51, 1⟩ := by
    unfold rgbToHsv jsRoundZ jsRem jsTrunc
    norm_num [max_def, min_def]
  have hrgb : hsvToRgb (15 : ℚ) (41/51 : ℚ) (1 : ℚ) = ⟨255, 101, 50⟩ := by
    unfold hsvToRgb jsRoundZ jsRem jsTrunc
    norm_num
    rw [show |(3/4 : ℚ)| = 3/4 from abs_of_nonneg (by norm_num)]
    norm_num
  have hfc : formatResults ⟨15, 41/51, 1, 4/5⟩ ColorFormat.rgba =
      FormatValue.rgbaV 255 101 50 (4/5) := by
    simp only [formatResults, hrgb]
  have hfx : formatResults ⟨15, 41/51, 1, 4/5⟩ ColorFormat.hex =
      FormatValue.hexV (rgbToHex 255 101 50) := by
    simp only [formatResults, hrgb]
    decide
  constructor
  · simp only [hconv]
    refine ⟨?_, ?_, trivial⟩
    · rw [abs_le]
      constructor <;> norm_num
    · rw [abs_le]
      constructor <;> norm_num
  · simp only [hconv]
    refine ⟨_, rfl, 255, 101, 50, ?_, ?_, by decide, by decide, by decide⟩
    · rw [trigger_lookup ⟨15, 41/51, 1, 4/5⟩ [ColorFormat.hex, ColorFormat.rgba]
        (fun _ => none) ColorFormat.rgba]
      rw [if_pos (by decide : ColorFormat.rgba ∈ [ColorFormat.hex, ColorFormat.rgba]),
        hfc]
    · rw [trigger_lookup ⟨15, 41/51, 1, 4/5⟩ [ColorFormat.hex, ColorFormat.rgba]
        (fun _ => none) ColorFormat.hex]
      rw [if_pos (by decide : ColorFormat.hex ∈ [ColorFormat.hex, ColorFormat.rgba]),
        hfx]
      decide

/-! ## Pointer-geometry claims -/

/-- For a nonnegative dividend, the real JS remainder by 360 lies in
`[0, 360)`. -/
theorem jsRemR_nonneg_dividend {x : ℝ} (hx : 0 ≤ x) :
    0 ≤ jsRemR x 360 ∧ jsRemR x 360 < 360 := by
  unfold jsRemR jsTruncR
  rw [if_pos (by positivity : (0 : ℝ) ≤ x / 360)]
  have h1 := Int.floor_le (x / 360)
  have h2 := Int.lt_floor_add_one (x / 360)
  constructor
  · have : (360 : ℝ) * ⌊x / 360⌋ ≤ 360 * (x / 360) := by
      apply mul_le_mul_of_nonneg_left h1 (by norm_num)
    have hxx : (360 : ℝ) * (x / 360) = x := by ring
    linarith
  · have : (360 : ℝ) * (x / 360) < 360 * ((⌊x / 360⌋ : ℝ) + 1) := by
      apply mul_lt_mul_of_pos_left h2 (by norm_num)
    have hxx : (360 : ℝ) * (x / 360) = x := by ring
    linarith

/-- **C2 (amended).** `radToDeg` returns a value in `[0, 360)` for every
input `rad ≥ -2π` — in particular for every value `Math.atan2` can produce
(its range is `(-π, π]`).  For smaller inputs the dividend of the JS `%` is
negative and the guarantee can fail: at `rad = -3π` the result is `-180`
(see the counterexample). -/
theorem radToDeg_range (rad : ℝ) (h : -(2 * Real.pi) ≤ rad) :
    0 ≤ radToDeg rad ∧ radToDeg rad < 360 := by
  have hpi := Real.pi_pos
  have hx : 0 ≤ rad * 180 / Real.pi + 360 := by
    have h1 : -(2 * Real.pi) * 180 / Real.pi ≤ rad * 180 / Real.pi :=
      (div_le_div_right hpi).mpr (mul_le_mul_of_nonneg_right h (by norm_num))
    have h2 : -(2 * Real.pi) * 180 / Real.pi = -360 := by
      field_simp
      ring
    linarith
  unfold radToDeg
  exact jsRemR_nonneg_dividend hx

/-- **C2 counterexample.** At `rad = -3π` (a real number, outside `atan2`'s
range) the dividend is `-180`, the JS `%` keeps the dividend's sign, and
`radToDeg` returns `-180 ∉ [0, 360)`. -/
theorem radToDeg_negative_input :
    radToDeg (-(3 * Real.pi)) = -180 ∧ ¬(0 ≤ radToDeg (-(3 * Real.pi))) := by
  have hpi := Real.pi_pos
  have heq : radToDeg (-(3 * Real.pi)) = -180 := by
    unfold radToDeg jsRemR jsTruncR
    rw [show -(3 * Real.pi) * 180 / Real.pi + 360 = -180 from by
      field_simp
      ring]
    rw [show (-180 : ℝ) / 360 = -(1/2) from by norm_num]
    rw [if_neg (by norm_num : ¬((0 : ℝ) ≤ -(1/2)))]
    rw [show ⌈(-(1/2) : ℝ)⌉ = 0 from by
      rw [Int.ceil_eq_zero_iff, Set.mem_Ioc]
      constructor <;> norm_num]
    norm_num
  exact ⟨heq, by rw [heq]; norm_num⟩

/-- **C2 witness.** The range statement applied at `rad = 0`. -/
theorem radToDeg_range_witness : 0 ≤ radToDeg 0 ∧ radToDeg 0 < 360 :=
  radToDeg_range 0 (neg_nonpos.mpr (by positivity))

/-- Directly above the center (12 o'clock, screen coordinates: `y` smaller
than the center's), `updateAlphaFromPosition` returns `1`. -/
theorem updateAlpha_above (cx cy d : ℝ) (hd : 0 < d) :
    updateAlphaFromPosition cx (cy - d) cx cy = 1 := by
  have hpi := Real.pi_pos
  simp only [updateAlphaFromPosition, getAngle, atan2]
  rw [show cy - d - cy = -d from by ring, show cx - cx = (0 : ℝ) from by ring]
  rw [if_neg (lt_irrefl (0 : ℝ)), if_neg (lt_irrefl (0 : ℝ))]
  rw [if_neg (not_lt.mpr (le_of_lt (neg_lt_zero.mpr hd)))]
  rw [if_pos (neg_lt_zero.mpr hd)]
  rw [show -(Real.pi / 2) + Real.pi / 2 = (0 : ℝ) from by ring]
  rw [if_neg (lt_irrefl (0 : ℝ))]
  norm_num

/-- Directly below the center (6 o'clock, screen coordinates: `y` larger than
the center's), `updateAlphaFromPosition` returns `1/2`: the shifted angle is
`π`, and `1 - π / (2π) = 1/2`. -/
theorem updateAlpha_below (cx cy d : ℝ) (hd : 0 < d) :
    updateAlphaFromPosition cx (cy + d) cx cy = 1/2 := by
  have hpi := Real.pi_pos
  simp only [updateAlphaFromPosition, getAngle, atan2]
  rw [show cy + d - cy = d from by ring, show cx - cx = (0 : ℝ) from by ring]
  rw [if_neg (lt_irrefl (0 : ℝ)), if_neg (lt_irrefl (0 : ℝ))]
  rw [if_pos hd]
  rw [show Real.pi / 2 + Real.pi / 2 = Real.pi from by ring]
  rw [if_neg (not_lt.mpr (le_of_lt hpi))]
  rw [show Real.pi / (2 * Real.pi) = 1/2 from by
    rw [eq_div_iff (by norm_num : (2 : ℝ) ≠ 0)]
    field_simp
    ring]
  norm_num

/-- **C3 (amended).** At 12 o'clock the computed alpha is `1`, as claimed;
at 6 o'clock it is `1/2`, **not** `0` (alpha reaches `0` only as the shifted
angle approaches `2π`, i.e. just counterclockwise of 12 o'clock). -/
theorem alpha_at_twelve_and_six (cx cy d : ℝ) (hd : 0 < d) :
    updateAlphaFromPosition cx (cy - d) cx cy = 1 ∧
    updateAlphaFromPosition cx (cy + d) cx cy = 1/2 :=
  ⟨updateAlpha_above cx cy d hd, updateAlpha_below cx cy d hd⟩

/-- **C3 counterexample.** At the point `(0, 1)` directly below the center
`(0, 0)`, the computed alpha is `1/2`, which is not `0` (and no rounding is
involved: the alpha is stored as is). -/
theorem alpha_at_six_oclock_not_zero :
    updateAlphaFromPosition 0 1 0 0 = 1/2 ∧ ((1:ℝ)/2 ≠ 0) := by
  have h := updateAlpha_below 0 0 1 one_pos
  rw [show (0 : ℝ) + 1 = 1 from by norm_num] at h
  exact ⟨h, by norm_num⟩

/-- **C3 witness.** The amended statement applied at center `(0,0)`,
offset `1`. -/
theorem alpha_at_twelve_and_six_witness :
    updateAlphaFromPosition 0 (0 - 1) 0 0 = 1 ∧
    updateAlphaFromPosition 0 (0 + 1) 0 0 = 1/2 :=
  alpha_at_twelve_and_six 0 0 1 one_pos

/-- **C9.** The saturation computed by `updateColorFromPosition` is
`min 1 (distance / wheelRadius)`, hence never exceeds `1`, regardless of how
far the pointer lies from the center. -/
theorem saturation_never_exceeds_one (x y cx cy wheelRadius : ℝ)
    (hw : 0 < wheelRadius) :
    (updateColorFromPosition x y cx cy wheelRadius).2 ≤ 1 :=
  min_le_left 1 (getDistance x y cx cy / wheelRadius)

/-- **C9 witness.** The clamp applied at a point at distance 5 from the
center with wheel radius 1. -/
theorem saturation_never_exceeds_one_witness :
    (updateColorFromPosition 3 4 0 0 1).2 ≤ 1 :=
  saturation_never_exceeds_one 3 4 0 0 1 one_pos

end ZColorPicker
